import Mathlib

/-!
# opsmate CLI (`cli/main.go`): inventory cache, client construction, rendering

A shallow embedding of `cli/main.go`.  Effects of the Go program (system
calls, file system, HTTP round trips, table output) are made explicit: every
function that touches the outside world takes a `World` and returns its result
together with the successor `World`, whose `trace` records, in order, each
effect that was performed.
-/

namespace Opsmate

/-! ## Go values -/

/-- A Go `error` value, identified by its message. -/
structure GoError where
  msg : String
deriving DecidableEq

/-- An instant, in nanoseconds on the wall clock (`time.Time`). -/
abbrev Time := Int

/-- A `time.Duration`: a signed count of nanoseconds held in an int64. -/
abbrev Duration := Int

/-- The least `time.Duration`, `-1 << 63`. -/
def minDuration : Int := -(2 ^ 63)

/-- The greatest `time.Duration`, `1<<63 - 1`. -/
def maxDuration : Int := 2 ^ 63 - 1

/-- Method `t.Sub(u)` of package `time`: the duration `t - u`, replaced by the least
or greatest duration when the difference does not fit in an int64. -/
def timeSub (t u : Int) : Int :=
  if t - u < minDuration then minDuration
  else if maxDuration < t - u then maxDuration
  else t - u

/-- Function `time.Since(t)`, that is `time.Now().Sub(t)`, with the clock reading `now`. -/
def timeSince (now t : Int) : Int := timeSub now t

/-! ## binary64 arithmetic

`getMemInfo` computes in `float64`.  The values it handles are finite and
non-negative, so a value is kept as `mant * 2 ^ exp` with `mant = 0` (zero) or
`2 ^ 52 ≤ mant < 2 ^ 53`; every operation is the exact rational result rounded
to the nearest such value, ties to the even mantissa (IEEE 754
round-to-nearest-even).  The exponent is not bounded: the program's values lie
between `2 ^ (-30)` and `2 ^ 71`, far inside the binary64 range. -/

/-- A finite non-negative binary64 value `mant * 2 ^ exp`. -/
structure F64 where
  mant : Nat
  exp : Int
deriving DecidableEq

namespace F64

/-- The rational number a binary64 value stands for. -/
def toRat (x : F64) : ℚ := (x.mant : ℚ) * (2 : ℚ) ^ x.exp

/-- Number of halvings that bring `n` below 2, at most `fuel` of them. -/
def ilog2Aux : Nat → Nat → Nat
  | 0, _ => 0
  | fuel + 1, n => if n < 2 then 0 else ilog2Aux fuel (n / 2) + 1

/-- Position of the highest set bit of `n` (0 for `n ≤ 1`). -/
def ilog2 (n : Nat) : Nat := ilog2Aux n n

/-- The binary exponent of a positive rational: the `e` with `2^e ≤ q < 2^(e+1)`. -/
def ilogb (q : ℚ) : Int :=
  let e0 : Int := (ilog2 q.num.toNat : Int) - (ilog2 q.den : Int)
  if (2 : ℚ) ^ e0 ≤ q then e0 else e0 - 1

/-- Nearest natural number to a non-negative rational, ties to the even one. -/
def roundHalfEven (q : ℚ) : Nat :=
  let f := ⌊q⌋.toNat
  let r := q - (f : ℚ)
  if r < 1 / 2 then f
  else if 1 / 2 < r then f + 1
  else if f % 2 = 0 then f else f + 1

/-- Round a rational to binary64 (round-to-nearest-even); arguments `≤ 0`
give zero, as no negative value occurs in the program. -/
def ofRat (q : ℚ) : F64 :=
  if q ≤ 0 then ⟨0, 0⟩
  else
    let s := ilogb q - 52
    let m := roundHalfEven (q / (2 : ℚ) ^ s)
    if m = 2 ^ 53 then ⟨2 ^ 52, s + 1⟩ else ⟨m, s⟩

/-- The conversion `float64(n)` of an unsigned integer, and the value of an
integer constant used as a `float64`. -/
def ofNat (n : Nat) : F64 := ofRat (n : ℚ)

/-- The quotient `x / y` in `float64`. -/
def div (x y : F64) : F64 := ofRat (x.toRat / y.toRat)

/-- The product `x * y` in `float64`. -/
def mul (x y : F64) : F64 := ofRat (x.toRat * y.toRat)

/-- Function `math.Round(x)`: the nearest integer, halves rounded away from zero. -/
def mathRound (x : F64) : F64 := ofRat ((⌊x.toRat + 1 / 2⌋.toNat : ℕ) : ℚ)

end F64

/-! ## Package `net/url` -/

/-- A Go string as `net/url` reads it: its sequence of bytes. -/
abbrev Bytes := List Nat

/-- The UTF-8 bytes of one character. -/
def utf8Encode (c : Char) : Bytes :=
  let n := c.toNat
  if n < 0x80 then [n]
  else if n < 0x800 then [0xC0 + n / 64, 0x80 + n % 64]
  else if n < 0x10000 then [0xE0 + n / 4096, 0x80 + n / 64 % 64, 0x80 + n % 64]
  else [0xF0 + n / 262144, 0x80 + n / 4096 % 64, 0x80 + n / 64 % 64, 0x80 + n % 64]

/-- The bytes of a string. -/
def goBytes (s : String) : Bytes := (s.toList.map utf8Encode).flatten

/-- First position at which `pat` occurs in a string (`strings.Index`). -/
def bytesIndex (pat : Bytes) : Bytes → Option Nat
  | [] => if pat = [] then some 0 else none
  | c :: cs => if pat.isPrefixOf (c :: cs) then some 0 else (bytesIndex pat cs).map (· + 1)

/-- Last position of the byte `b` in a string, scanning from position `i`
(`strings.LastIndex` with a one-byte pattern). -/
def lastIndexByteFrom (b : Nat) : Nat → Bytes → Option Nat
  | _, [] => none
  | i, c :: cs =>
    match lastIndexByteFrom b (i + 1) cs with
    | some j => some j
    | none => if c = b then some i else none

/-- Function `strings.Cut(s, sep)`. -/
def bytesCut (s sep : Bytes) : Bytes × Bytes × Bool :=
  match bytesIndex sep s with
  | some i => (s.take i, s.drop (i + sep.length), true)
  | none => (s, [], false)

/-- Function `stringContainsCTLByte`: some byte is below 0x20 or is 0x7f. -/
def stringContainsCTLByte (s : Bytes) : Bool := s.any fun b => b < 0x20 || b == 0x7f

/-- ASCII letter. -/
def isAlpha (c : Nat) : Bool := (0x61 ≤ c && c ≤ 0x7a) || (0x41 ≤ c && c ≤ 0x5a)

/-- ASCII digit. -/
def isDigit (c : Nat) : Bool := 0x30 ≤ c && c ≤ 0x39

/-- Function `strings.ToLower` on a scheme, which holds only ASCII letters,
digits, `+`, `-` and `.`: upper-case letters are mapped to lower case. -/
def toLowerASCII (s : Bytes) : Bytes := s.map fun c => if 0x41 ≤ c && c ≤ 0x5a then c + 32 else c

/-- Function `ishex`. -/
def ishex (c : Nat) : Bool :=
  isDigit c || (0x61 ≤ c && c ≤ 0x66) || (0x41 ≤ c && c ≤ 0x46)

/-- Function `unhex`. -/
def unhex (c : Nat) : Nat :=
  if isDigit c then c - 0x30
  else if 0x61 ≤ c && c ≤ 0x66 then c - 0x61 + 10
  else if 0x41 ≤ c && c ≤ 0x46 then c - 0x41 + 10
  else 0

/-- The `encoding` modes of `net/url`. -/
inductive Encoding
  | encodePath
  | encodePathSegment
  | encodeHost
  | encodeZone
  | encodeUserPassword
  | encodeQueryComponent
  | encodeFragment
deriving DecidableEq

/-- Function `shouldEscape(c, mode)`. -/
def shouldEscape (c : Nat) (mode : Encoding) : Bool :=
  if isAlpha c || isDigit c then false
  else if (mode = .encodeHost || mode = .encodeZone) &&
      c ∈ goBytes "!$&'()*+,;=:[]<>\"" then false
  else if c ∈ goBytes "-_.~" then false
  else if c ∈ goBytes "$&+,/:;=?@" &&
      (mode = .encodePath || mode = .encodePathSegment || mode = .encodeUserPassword ||
        mode = .encodeQueryComponent || mode = .encodeFragment) then
    match mode with
    | .encodePath => c == 0x3f
    | .encodePathSegment => c == 0x2f || c == 0x3b || c == 0x2c || c == 0x3f
    | .encodeUserPassword => c == 0x40 || c == 0x2f || c == 0x3f || c == 0x3a
    | .encodeQueryComponent => true
    | _ => false
  else if mode = .encodeFragment && c ∈ goBytes "!()*" then false
  else true

/-- Function `unescape(s, mode)`: the validity scan and the decoding pass of
the Go function, done together from left to right, so the error returned is
that of the leftmost offending byte, as in Go. -/
def unescape (mode : Encoding) : Bytes → Except GoError Bytes
  | [] => .ok []
  | c :: cs =>
    if c = 0x25 then
      match cs with
      | a :: b :: rest =>
        if !ishex a || !ishex b then .error ⟨"invalid URL escape"⟩
        else if mode = .encodeHost && unhex a < 8 && [c, a, b] ≠ goBytes "%25" then
          .error ⟨"invalid URL escape"⟩
        else if mode = .encodeZone && [c, a, b] ≠ goBytes "%25" && unhex a * 16 + unhex b ≠ 0x20
            && shouldEscape (unhex a * 16 + unhex b) .encodeHost then
          .error ⟨"invalid URL escape"⟩
        else
          match unescape mode rest with
          | .error err => .error err
          | .ok t => .ok ((unhex a * 16 + unhex b) :: t)
      | _ => .error ⟨"invalid URL escape"⟩
    else if (mode = .encodeHost || mode = .encodeZone) && c < 0x80 &&
        shouldEscape c .encodeHost then
      .error ⟨"invalid character in host name"⟩
    else
      match unescape mode cs with
      | .error err => .error err
      | .ok t => .ok ((if c = 0x2b ∧ mode = .encodeQueryComponent then 0x20 else c) :: t)

/-- Function `getScheme`, at byte position `i` with `s` left to scan. -/
def getSchemeFrom (rawURL : Bytes) : Nat → Bytes → Except GoError (Bytes × Bytes)
  | _, [] => .ok ([], rawURL)
  | i, c :: cs =>
    if isAlpha c then getSchemeFrom rawURL (i + 1) cs
    else if isDigit c || c == 0x2b || c == 0x2d || c == 0x2e then
      if i = 0 then .ok ([], rawURL) else getSchemeFrom rawURL (i + 1) cs
    else if c = 0x3a then
      if i = 0 then .error ⟨"missing protocol scheme"⟩ else .ok (rawURL.take i, cs)
    else .ok ([], rawURL)

/-- Function `getScheme(rawURL)`: the scheme and the rest after the colon. -/
def getScheme (rawURL : Bytes) : Except GoError (Bytes × Bytes) :=
  getSchemeFrom rawURL 0 rawURL

/-- Function `validOptionalPort`: empty, or a colon followed by digits only. -/
def validOptionalPort (port : Bytes) : Bool :=
  match port with
  | [] => true
  | c :: ds => c == 0x3a && ds.all isDigit

/-- Function `parseHost`. -/
def parseHost (host : Bytes) : Except GoError Bytes :=
  if (goBytes "[").isPrefixOf host then
    match lastIndexByteFrom 0x5d 0 host with
    | none => .error ⟨"missing ']' in host"⟩
    | some i =>
      if !validOptionalPort (host.drop (i + 1)) then .error ⟨"invalid port after host"⟩
      else
        match bytesIndex (goBytes "%25") (host.take i) with
        | some zone =>
          match unescape .encodeHost (host.take zone) with
          | .error err => .error err
          | .ok host1 =>
            match unescape .encodeZone ((host.take i).drop zone) with
            | .error err => .error err
            | .ok host2 =>
              match unescape .encodeHost (host.drop i) with
              | .error err => .error err
              | .ok host3 => .ok (host1 ++ host2 ++ host3)
        | none => unescape .encodeHost host
  else
    match lastIndexByteFrom 0x3a 0 host with
    | some i =>
      if !validOptionalPort (host.drop i) then .error ⟨"invalid port after host"⟩
      else unescape .encodeHost host
    | none => unescape .encodeHost host

/-- Function `validUserinfo`: only letters, digits and `-._:~!$&'()*+,;=%@`. -/
def validUserinfo (s : Bytes) : Bool :=
  s.all fun r => isAlpha r || isDigit r || r ∈ goBytes "-._:~!$&'()*+,;=%@"

/-- The user name and optional password of a URL (`url.Userinfo`). -/
structure Userinfo where
  username : Bytes
  password : Option Bytes
deriving DecidableEq

/-- Function `parseAuthority`. -/
def parseAuthority (authority : Bytes) : Except GoError (Option Userinfo × Bytes) :=
  let i := lastIndexByteFrom 0x40 0 authority
  let hostResult := match i with
    | none => parseHost authority
    | some i => parseHost (authority.drop (i + 1))
  match hostResult with
  | .error err => .error err
  | .ok host =>
    match i with
    | none => .ok (none, host)
    | some i =>
      let userinfo := authority.take i
      if !validUserinfo userinfo then .error ⟨"net/url: invalid userinfo"⟩
      else if !(0x3a ∈ userinfo) then
        match unescape .encodeUserPassword userinfo with
        | .error err => .error err
        | .ok u => .ok (some ⟨u, none⟩, host)
      else
        let (username, password, _) := bytesCut userinfo (goBytes ":")
        match unescape .encodeUserPassword username with
        | .error err => .error err
        | .ok u =>
          match unescape .encodeUserPassword password with
          | .error err => .error err
          | .ok p => .ok (some ⟨u, some p⟩, host)

/-- The fields of `url.URL` that `Parse` fills, apart from the `RawPath` and
`RawFragment` encoding hints. -/
structure URL where
  Scheme : Bytes := []
  Opaque : Bytes := []
  User : Option Userinfo := none
  Host : Bytes := []
  Path : Bytes := []
  OmitHost : Bool := false
  ForceQuery : Bool := false
  RawQuery : Bytes := []
  Fragment : Bytes := []
deriving DecidableEq

/-- Function `parse(rawURL, viaRequest)` with `viaRequest = false`, as `Parse`
calls it. -/
def parse (rawURL : Bytes) : Except GoError URL :=
  if stringContainsCTLByte rawURL then .error ⟨"net/url: invalid control character in URL"⟩
  else if rawURL = goBytes "*" then .ok { Path := goBytes "*" }
  else
    match getScheme rawURL with
    | .error err => .error err
    | .ok (scheme0, rest0) =>
      let scheme := toLowerASCII scheme0
      let forceQuery := (goBytes "?").isSuffixOf rest0 && rest0.count 0x3f == 1
      let rest1 := if forceQuery then rest0.take (rest0.length - 1)
        else (bytesCut rest0 (goBytes "?")).1
      let rawQuery := if forceQuery then [] else (bytesCut rest0 (goBytes "?")).2.1
      if !(goBytes "/").isPrefixOf rest1 && scheme ≠ [] then
        .ok { Scheme := scheme, Opaque := rest1, ForceQuery := forceQuery, RawQuery := rawQuery }
      else if !(goBytes "/").isPrefixOf rest1 &&
          0x3a ∈ (bytesCut rest1 (goBytes "/")).1 then
        .error ⟨"first path segment in URL cannot contain colon"⟩
      else if (scheme ≠ [] || !(goBytes "///").isPrefixOf rest1) &&
          (goBytes "//").isPrefixOf rest1 then
        let authority0 := rest1.drop 2
        let authority := match bytesIndex (goBytes "/") authority0 with
          | some i => authority0.take i
          | none => authority0
        let rest2 := match bytesIndex (goBytes "/") authority0 with
          | some i => authority0.drop i
          | none => []
        match parseAuthority authority with
        | .error err => .error err
        | .ok (user, host) =>
          match unescape .encodePath rest2 with
          | .error err => .error err
          | .ok path =>
            .ok { Scheme := scheme, User := user, Host := host, Path := path,
                  ForceQuery := forceQuery, RawQuery := rawQuery }
      else
        match unescape .encodePath rest1 with
        | .error err => .error err
        | .ok path =>
          .ok { Scheme := scheme, Path := path,
                OmitHost := scheme ≠ [] && (goBytes "/").isPrefixOf rest1,
                ForceQuery := forceQuery, RawQuery := rawQuery }

/-- Function `url.Parse(rawURL)`: cut off the fragment, parse the rest, then
set the fragment. -/
def urlParse (rawURL : Bytes) : Except GoError URL :=
  let (u, frag, _) := bytesCut rawURL (goBytes "#")
  match parse u with
  | .error err => .error err
  | .ok url =>
    if frag = [] then .ok url
    else
      match unescape .encodeFragment frag with
      | .error err => .error err
      | .ok f => .ok { url with Fragment := f }


/-! ## The outside world -/

/-- The fields of `syscall.Sysinfo_t` read by `getMemInfo`: `Totalram` is a
`uint64`, `Unit` a `uint32`. -/
structure SysinfoT where
  Totalram : Nat
  Unit : Nat
deriving DecidableEq

/-- A regular file: its bytes and its last-modified time. -/
structure FileNode where
  content : String
  modTime : Time
deriving DecidableEq

/-- One row-oriented table handed to `tablewriter`: the argument of
`SetHeader` and the arguments of the `Append` calls, in order. -/
structure Table where
  header : List String
  rows : List (List String)
deriving DecidableEq

/-- Modelled from the spec: the SDK's `Configuration` as far as `getClient`
sets it, the host and the scheme every later call of the client targets; the
generated defaults of `NewConfiguration` play no part in `main.go`. -/
structure Configuration where
  Host : Bytes
  Scheme : Bytes
deriving DecidableEq

/-- Modelled from the spec: the SDK's `APIClient`, a client bound to its
configuration. -/
structure APIClient where
  cfg : Configuration
deriving DecidableEq

/-- Modelled from the spec: one record returned by `listModels`, with the
SDK's getters `GetProvider` and `GetModel` reading its two fields. -/
structure Model where
  provider : String
  model : String
deriving DecidableEq

/-- Getter `GetProvider` of the SDK. -/
def Model.GetProvider (m : Model) : String := m.provider

/-- Getter `GetModel` of the SDK. -/
def Model.GetModel (m : Model) : String := m.model

/-- Modelled from the spec: the record returned by `health`, with the SDK's
getter `GetStatus`. -/
structure Health where
  status : String
deriving DecidableEq

/-- Getter `GetStatus` of the SDK. -/
def Health.GetStatus (h : Health) : String := h.status

/-- The request body of the run call (`opsmatesdk.RunRequest`). -/
structure RunRequest where
  Provider : String
  Model : String
  Instruction : String
  Contexts : List String
deriving DecidableEq

/-- A value of a run result record, an `interface{}` decoded from JSON. -/
inductive Value
  | null
  | bool (b : Bool)
  | number (neg : Bool) (mag : F64)
  | str (s : String)
  | array (items : List Value)
  | object (fields : List (String × Value))

/-- A run result record, a Go `map[string]interface{}`: its entries, each key
once.  The order of the list carries no meaning. -/
structure GoMap where
  entries : List (String × Value)

/-- An observable effect of the program. -/
inductive Event
  | sysinfo
  | mkdirAll (path : String)
  | stat (path : String)
  | create (path : String)
  | write (path : String) (data : String)
  | close (path : String)
  | listModels (client : APIClient)
  | health (client : APIClient)
  | run (client : APIClient) (req : RunRequest)
  | closeBody
  | render (t : Table)
  | println (s : String)
  | logFatal (err : GoError)
deriving DecidableEq

/-- State of the host as far as the program can observe or change it. -/
structure World where
  /-- Constant `runtime.GOOS` -/
  goos : String
  /-- Constant `runtime.GOARCH` -/
  goarch : String
  /-- Result of `runtime.NumCPU()` -/
  numCPU : Nat
  /-- what `syscall.Sysinfo` answers -/
  sysinfoResult : Except GoError SysinfoT
  /-- the wall clock as the program reads it (`time.Now`) -/
  now : Time
  /-- the time the file system stamps on a file that is created or written
  now: the kernel's own, coarser clock, which need not agree with `now` -/
  fsClock : Time
  /-- the regular files `os.Stat` can see, by path -/
  files : String → Option FileNode
  /-- directories that `os.MkdirAll` has ensured -/
  dirs : List String
  /-- the error `os.MkdirAll` meets on a path, if any -/
  mkdirAllErr : String → Option GoError
  /-- the error `os.Create` meets on a path, if any -/
  createErr : String → Option GoError
  /-- the error writing to an open file meets, if any -/
  writeErr : String → Option GoError
  /-- what the models endpoint answers to `Execute` -/
  listModelsResult : APIClient → Except GoError (List Model)
  /-- what the health endpoint answers to `Execute` -/
  healthResult : APIClient → Except GoError Health
  /-- what the run endpoint answers to `Execute` -/
  runResult : APIClient → RunRequest → Except GoError (List GoMap)
  /-- the order in which `range` yields the entries of the `i`-th result
  record; Go leaves it unspecified -/
  rangeOrder : Nat → GoMap → List (String × Value)
  /-- every effect performed so far, oldest first -/
  trace : List Event

/-- The runtime iterates a map over exactly its entries: each `range` order is
a rearrangement of the entries of the map. -/
def World.RangeOk (w : World) : Prop :=
  ∀ i m, (w.rangeOrder i m).Perm m.entries

/-- Record an effect. -/
def World.emit (w : World) (ev : Event) : World :=
  { w with trace := w.trace ++ [ev] }

/-- Replace the file at `path`. -/
def World.setFile (w : World) (path : String) (f : FileNode) : World :=
  { w with files := fun p => if p = path then some f else w.files p }

/-- Library functions of the Go distribution that the program calls and whose
results are only passed along. -/
structure Lib where
  /-- Function `filepath.Join(dir, name)` -/
  filepathJoin : String → String → String
  /-- the JSON text `encoding/json` writes for a string -/
  jsonString : String → String
  /-- the JSON text `encoding/json` writes for a `float64` -/
  jsonFloat : F64 → String
  /-- the text `fmt.Sprintf("%v", v)` gives for a value that is not a string -/
  sprintOther : Value → String

/-! ## Host inspector -/

/-- A value stored in the inventory map (`interface{}`): the dynamic types
that `osInventory` puts there. -/
inductive InvValue
  | str (s : String)
  | int (n : Nat)
  | float (x : F64)
deriving DecidableEq

/-- Function `getMemInfo` (main.go:227-238). -/
def getMemInfo (w : World) : Except GoError F64 × World :=
  let w1 := w.emit Event.sysinfo
  match w.sysinfoResult with
  | .error err => (.error err, w1)
  | .ok info =>
    let totalRam := (info.Totalram * info.Unit) % 2 ^ 64
    let memInGB := F64.div (F64.ofNat totalRam) (F64.ofNat (1024 * 1024 * 1024))
    (.ok (F64.div (F64.mathRound (F64.mul memInGB (F64.ofNat 100))) (F64.ofNat 100)), w1)

/-- Function `osInventory` (main.go:214-225); the map literal is kept as its list of
entries. -/
def osInventory (w : World) : Except GoError (List (String × InvValue)) × World :=
  match getMemInfo w with
  | (.error err, w1) => (.error err, w1)
  | (.ok memInGB, w1) =>
    (.ok [("os", InvValue.str w.goos),
          ("arch", InvValue.str w.goarch),
          ("cpus", InvValue.int w.numCPU),
          ("memInGB", InvValue.float memInGB)], w1)

/-- The memory figure as the specification words it: the byte count divided
by `2^30`, rounded to two decimal places with halves away from zero, that is
`round(b * 100 / 2^30) / 100`, as an exact rational number. -/
def memInGBSpec (b : Nat) : ℚ := ((⌊(b : ℚ) * 100 / 2 ^ 30 + 1 / 2⌋ : ℤ) : ℚ) / 100

/-! ## JSON encoding of the inventory -/

/-- Insert an entry into a list of entries sorted by key; keys compare as Go
strings do, lexicographically by character code. -/
def insertByKey (e : String × InvValue) : List (String × InvValue) → List (String × InvValue)
  | [] => [e]
  | x :: xs => if e.1.toList < x.1.toList then e :: x :: xs else x :: insertByKey e xs

/-- The entries of a map in the order `encoding/json` writes them: sorted by key. -/
def sortByKey : List (String × InvValue) → List (String × InvValue)
  | [] => []
  | x :: xs => insertByKey x (sortByKey xs)

/-- JSON text of one inventory value. -/
def encodeValue (lib : Lib) : InvValue → String
  | .str s => lib.jsonString s
  | .int n => toString n
  | .float x => lib.jsonFloat x

/-- What `enc.Encode(m)` writes after `enc.SetIndent("", "  ")` for a map `m`
of strings to scalars: one `"key": value` line per entry, indented by two
spaces, keys sorted, and a final newline. -/
def encodeIndent (lib : Lib) (m : List (String × InvValue)) : String :=
  match sortByKey m with
  | [] => "\x7b\x7d\n"
  | es =>
    "\x7b\n" ++ ",\n".intercalate
      (es.map fun e => "  " ++ lib.jsonString e.1 ++ ": " ++ encodeValue lib e.2) ++ "\n\x7d\n"

/-! ## Inventory cache -/

/-- The tail of `RecordInventory` from `os.Create` on (main.go:202-210):
create or truncate the file, encode the inventory into it in one `Write`, and
close it on return.  The file system, not the program, sets the modification
time of the file, from its own clock. -/
def recordInventoryWrite (lib : Lib) (filename : String)
    (inventory : List (String × InvValue)) (w4 : World) : Except GoError Unit × World :=
  let w5 := w4.emit (Event.create filename)
  match w4.createErr filename with
  | some err => (.error err, w5)
  | none =>
    let w6 := w5.setFile filename ⟨"", w5.fsClock⟩
    let data := encodeIndent lib inventory
    let w7 := w6.emit (Event.write filename data)
    match w6.writeErr filename with
    | some err => (.error err, w7.emit (Event.close filename))
    | none => (.ok (), (w7.setFile filename ⟨data, w7.fsClock⟩).emit (Event.close filename))

/-- Function `RecordInventory` (main.go:186-211). -/
def RecordInventory (lib : Lib) (inventoryDir : String) (inventoryTTL : Duration)
    (w : World) : Except GoError Unit × World :=
  match osInventory w with
  | (.error err, w1) => (.error err, w1)
  | (.ok inventory, w1) =>
    let w2 := w1.emit (Event.mkdirAll inventoryDir)
    match w1.mkdirAllErr inventoryDir with
    | some err => (.error err, w2)
    | none =>
      let w3 := { w2 with dirs := inventoryDir :: w2.dirs }
      let filename := lib.filepathJoin inventoryDir "inventory.json"
      let w4 := w3.emit (Event.stat filename)
      match w4.files filename with
      | some stats =>
        if timeSince w4.now stats.modTime < inventoryTTL then (.ok (), w4)
        else recordInventoryWrite lib filename inventory w4
      | none => recordInventoryWrite lib filename inventory w4

/-- The effects performed between world `w` and a later world `w1`. -/
def performed (w w1 : World) : List Event := w1.trace.drop w.trace.length

/-- Number of `syscall.Sysinfo` calls (Host Inspector invocations) in a trace. -/
def inspectorCalls (tr : List Event) : Nat :=
  tr.countP fun ev => match ev with
    | .sysinfo => true
    | _ => false

/-- Number of `os.Create` calls on `path` in a trace (each creates or
truncates the file). -/
def createsOf (path : String) (tr : List Event) : Nat :=
  tr.countP fun ev => match ev with
    | .create p => p == path
    | _ => false

/-- Number of writes to `path` in a trace. -/
def writesTo (path : String) (tr : List Event) : Nat :=
  tr.countP fun ev => match ev with
    | .write p _ => p == path
    | _ => false

/-! ## API client wrapper -/

/-- Function `getClient` (main.go:173-184).  The error of `url.Parse` is
passed on; host and scheme of the parsed URL are stored in the configuration. -/
def getClient (endpoint : String) : Except GoError APIClient :=
  match urlParse (goBytes endpoint) with
  | .error err => .error err
  | .ok url => .ok ⟨⟨url.Host, url.Scheme⟩⟩

/-! ## Command dispatcher -/

/-- The values of the global flags and of the `run` command's flag and
argument, as `urfave/cli` hands them to the hooks. -/
structure Flags where
  endpoint : String
  inventoryDir : String
  inventoryTTL : Duration
  provider : String
  model : String
  contexts : List String
  instruction : String

/-- The three commands. -/
inductive Command
  | listModels
  | status
  | run
deriving DecidableEq

/-- The `Before` hook of the app (main.go:59-70): on success the client is
stored in the context, which is what is returned here. -/
def before (lib : Lib) (c : Flags) (w : World) : Except GoError APIClient × World :=
  match getClient c.endpoint with
  | .error err => (.error err, w)
  | .ok client =>
    match RecordInventory lib c.inventoryDir c.inventoryTTL w with
    | (.error err, w1) => (.error err, w1)
    | (.ok (), w1) => (.ok client, w1)

/-- The `Action` of `list-models` (main.go:75-98). -/
def listModelsAction (client : APIClient) (w : World) : Except GoError Unit × World :=
  let w1 := w.emit (Event.listModels client)
  match w.listModelsResult client with
  | .error err => (.error err, w1)
  | .ok models =>
    let table : Table :=
      { header := ["PROVIDER", "MODEL"]
        rows := models.map fun model => [model.GetProvider, model.GetModel] }
    (.ok (), (w1.emit (Event.render table)).emit Event.closeBody)

/-- The `Action` of `status` (main.go:103-113). -/
def statusAction (client : APIClient) (w : World) : Except GoError Unit × World :=
  let w1 := w.emit (Event.health client)
  match w.healthResult client with
  | .error err => (.error err, w1)
  | .ok health => (.ok (), (w1.emit (Event.println health.GetStatus)).emit Event.closeBody)

/-- The text of `fmt.Sprintf("%v", v)`: a string is printed as it is. -/
def sprintV (lib : Lib) : Value → String
  | .str s => s
  | v => lib.sprintOther v

/-- The body of the loop over the results (main.go:150-160) for one record
whose entries `range` yields in the order `iter`: keys and values are appended
side by side, then set as header and as the single row of a new table. -/
def renderResult (lib : Lib) (iter : List (String × Value)) : Table :=
  { header := iter.map fun kv => kv.1
    rows := [iter.map fun kv => sprintV lib kv.2] }

/-- The loop over the results (main.go:149-161), the first of them being the
`i`-th record of the response. -/
def renderResults (lib : Lib) : Nat → List GoMap → World → World
  | _, [], w => w
  | i, result :: results, w =>
    renderResults lib (i + 1) results
      (w.emit (Event.render (renderResult lib (w.rangeOrder i result))))

/-- The `Action` of `run` (main.go:127-163). -/
def runAction (lib : Lib) (c : Flags) (client : APIClient) (w : World) :
    Except GoError Unit × World :=
  let req : RunRequest :=
    { Provider := c.provider, Model := c.model, Instruction := c.instruction,
      Contexts := c.contexts }
  let w1 := w.emit (Event.run client req)
  match w.runResult client req with
  | .error err => (.error err, w1)
  | .ok results => (.ok (), (renderResults lib 0 results w1).emit Event.closeBody)

/-- The `Action` of a command. -/
def action (lib : Lib) (cmd : Command) (c : Flags) (client : APIClient) (w : World) :
    Except GoError Unit × World :=
  match cmd with
  | .listModels => listModelsAction client w
  | .status => statusAction client w
  | .run => runAction lib c client w

/-- Call `app.Run` for a command line that selects `cmd` (main.go:168):
`urfave/cli` calls the `Before` hook and, only when the hook returns no error,
the `Action` of the command; an error of either is the result. -/
def appRun (lib : Lib) (cmd : Command) (c : Flags) (w : World) : Except GoError Unit × World :=
  match before lib c w with
  | (.error err, w1) => (.error err, w1)
  | (.ok client, w1) => action lib cmd c client w1

/-- The end of `main` (main.go:168-170): an error of `app.Run` is printed by
`log.Fatal`, which exits with status 1; otherwise the status is 0. -/
def mainRun (lib : Lib) (cmd : Command) (c : Flags) (w : World) : Nat × World :=
  match appRun lib cmd c w with
  | (.error err, w1) => (1, w1.emit (Event.logFatal err))
  | (.ok (), w1) => (0, w1)

/-- Whether an effect is a call to the remote service. -/
def Event.isRemote : Event → Bool
  | .listModels _ => true
  | .health _ => true
  | .run _ _ => true
  | _ => false

/-- Whether an effect is output of a command (a table or a line). -/
def Event.isOutput : Event → Bool
  | .render _ => true
  | .println _ => true
  | _ => false

/-! ## Sample host used to evaluate the program on concrete inputs -/

/-- Library behaviour on the sample inputs: joining a clean directory path and
a file name puts one slash between them, a plain ASCII string is written
between double quotes, and a float is written as mantissa and exponent. -/
def sampleLib : Lib where
  filepathJoin := fun dir name => dir ++ "/" ++ name
  jsonString := fun s => "\"" ++ s ++ "\""
  jsonFloat := fun x => toString x.mant ++ "p" ++ toString x.exp
  sprintOther := fun _ => "?"

/-- A Linux host with 16 GiB of memory on which every system call succeeds,
with an empty inventory directory, at clock reading `now`. -/
def sampleWorld (now : Time) : World where
  goos := "linux"
  goarch := "amd64"
  numCPU := 8
  sysinfoResult := .ok ⟨17179869184, 1⟩
  now := now
  fsClock := now
  files := fun _ => none
  dirs := []
  mkdirAllErr := fun _ => none
  createErr := fun _ => none
  writeErr := fun _ => none
  listModelsResult := fun _ => .ok [⟨"openai", "gpt-4o"⟩]
  healthResult := fun _ => .ok ⟨"ok"⟩
  runResult := fun _ _ =>
    .ok [⟨[("cmd", Value.str "ls"), ("exit", Value.str "0")]⟩,
         ⟨[("cmd", Value.str "pwd"), ("exit", Value.str "0")]⟩]
  rangeOrder := fun _ m => m.entries
  trace := []

/-- The inventory directory of the samples. -/
def sampleDir : String := "/home/u/.config/opsmate"

/-- The inventory file of the samples. -/
def samplePath : String := "/home/u/.config/opsmate/inventory.json"

/-- A world in which the sample inventory file holds `f`. -/
def World.withInventory (w : World) (f : FileNode) : World :=
  { w with files := fun p => if p = samplePath then some f else w.files p }

/-- A world in which `syscall.Sysinfo` fails. -/
def World.withSysinfoError (w : World) (err : GoError) : World :=
  { w with sysinfoResult := .error err }

/-- A world in which `syscall.Sysinfo` answers `info`. -/
def World.withSysinfo (w : World) (info : SysinfoT) : World :=
  { w with sysinfoResult := .ok info }

/-- The world after the clock has moved to `now` and nothing else happened. -/
def World.atTime (w : World) (now : Time) : World :=
  { w with now := now }

/-- The world in which the file system stamps files with the time `t`. -/
def World.withFsClock (w : World) (t : Time) : World :=
  { w with fsClock := t }

/-- A host, at clock reading 10 ms, whose file system clock lags the program's
clock by 5.29 ms. -/
def laggingWorld : World := (sampleWorld 10000000).withFsClock 4710000

/-- One millisecond, in nanoseconds. -/
def oneMillisecond : Duration := 1000000

/-- A host, at clock reading 0, whose inventory file carries a modification
time `2^63 + 1` ns (some 292 years) ahead of the clock. -/
def farFutureWorld : World :=
  (sampleWorld 0).withInventory ⟨"\x7b\x7d\n", 9223372036854775809⟩

/-- The default `--inventory-ttl`, ten minutes in nanoseconds. -/
def tenMinutes : Duration := 600000000000

/-- A host whose inventory file was written 600 ns ago. -/
def hitWorld : World := (sampleWorld 1000).withInventory ⟨"\x7b\x7d\n", 400⟩

/-- A host whose inventory file carries a modification time 1000 ns ahead of
the clock. -/
def futureWorld : World := (sampleWorld 1000).withInventory ⟨"\x7b\x7d\n", 2000⟩

/-- The error `syscall.Sysinfo` reports when the call is not permitted. -/
def ePerm : GoError := ⟨"operation not permitted"⟩

/-- A command line with the default flag values and the endpoint `e`. -/
def sampleFlags (e : String) : Flags where
  endpoint := e
  inventoryDir := sampleDir
  inventoryTTL := tenMinutes
  provider := "openai"
  model := "gpt-4o"
  contexts := ["cli"]
  instruction := "list the pods"

/-- The sample host on which `range` yields the entries of every record in
the reverse of their listed order. -/
def reversedWorld : World :=
  { sampleWorld 1000 with rangeOrder := fun _ m => m.entries.reverse }

/-- The client for the default endpoint. -/
def sampleClient : APIClient := ⟨⟨goBytes "127.0.0.1:8000", goBytes "http"⟩⟩

/-! ## Theorems -/

/-! ### binary64 rounding -/

namespace F64

theorem ilog2Aux_spec : ∀ (fuel n : Nat), n ≤ fuel → 1 ≤ n →
    2 ^ ilog2Aux fuel n ≤ n ∧ n < 2 ^ (ilog2Aux fuel n + 1)
  | 0, n, h, h1 => by omega
  | fuel + 1, n, h, h1 => by
    unfold ilog2Aux
    split_ifs with hn
    · have : n = 1 := by omega
      subst this
      simp
    · have h2 : n / 2 ≤ fuel := by omega
      have h3 : 1 ≤ n / 2 := by omega
      obtain ⟨ih1, ih2⟩ := ilog2Aux_spec fuel (n / 2) h2 h3
      constructor
      · rw [pow_succ]
        omega
      · rw [pow_succ]
        omega

theorem ilog2_spec (n : Nat) (h : 1 ≤ n) : 2 ^ ilog2 n ≤ n ∧ n < 2 ^ (ilog2 n + 1) :=
  ilog2Aux_spec n n (le_refl n) h

theorem ilogb_spec (q : ℚ) (hq : 0 < q) :
    (2 : ℚ) ^ ilogb q ≤ q ∧ q < (2 : ℚ) ^ (ilogb q + 1) := by
  have hnum : 0 < q.num := Rat.num_pos.mpr hq
  have hn1 : 1 ≤ q.num.toNat := by omega
  have hd1 : 1 ≤ q.den := q.den_pos
  obtain ⟨a1, a2⟩ := ilog2_spec q.num.toNat hn1
  obtain ⟨c1, c2⟩ := ilog2_spec q.den hd1
  have hqe : q = (q.num.toNat : ℚ) / (q.den : ℚ) := by
    have : ((q.num.toNat : ℤ) : ℚ) = (q.num : ℚ) := by
      rw [Int.toNat_of_nonneg hnum.le]
    rw [← Int.cast_natCast, this]
    exact (Rat.num_div_den q).symm
  have hdpos : (0 : ℚ) < (q.den : ℚ) := by exact_mod_cast q.den_pos
  have A1 : ((2 : ℚ) ^ ilog2 q.num.toNat) ≤ (q.num.toNat : ℚ) := by exact_mod_cast a1
  have A2 : (q.num.toNat : ℚ) < (2 : ℚ) ^ (ilog2 q.num.toNat + 1) := by exact_mod_cast a2
  have C1 : ((2 : ℚ) ^ ilog2 q.den) ≤ (q.den : ℚ) := by exact_mod_cast c1
  have C2 : (q.den : ℚ) < (2 : ℚ) ^ (ilog2 q.den + 1) := by exact_mod_cast c2
  have two_pos : (0 : ℚ) < 2 := by norm_num
  -- bounds on q
  have hlow : (2 : ℚ) ^ ((ilog2 q.num.toNat : ℤ) - (ilog2 q.den : ℤ) - 1)
      < (q.num.toNat : ℚ) / (q.den : ℚ) := by
    rw [lt_div_iff₀ hdpos]
    calc (2 : ℚ) ^ ((ilog2 q.num.toNat : ℤ) - (ilog2 q.den : ℤ) - 1) * (q.den : ℚ)
        < (2 : ℚ) ^ ((ilog2 q.num.toNat : ℤ) - (ilog2 q.den : ℤ) - 1)
            * (2 : ℚ) ^ (ilog2 q.den + 1) := by
          apply mul_lt_mul_of_pos_left C2
          exact zpow_pos two_pos _
      _ = (2 : ℚ) ^ ilog2 q.num.toNat := by
          rw [← zpow_natCast, ← zpow_add₀ (by norm_num : (2 : ℚ) ≠ 0), ← zpow_natCast]
          congr 1
          push_cast
          ring
      _ ≤ (q.num.toNat : ℚ) := A1
  have hhigh : (q.num.toNat : ℚ) / (q.den : ℚ)
      < (2 : ℚ) ^ ((ilog2 q.num.toNat : ℤ) - (ilog2 q.den : ℤ) + 1) := by
    rw [div_lt_iff₀ hdpos]
    calc (q.num.toNat : ℚ) < (2 : ℚ) ^ (ilog2 q.num.toNat + 1) := A2
      _ = (2 : ℚ) ^ ((ilog2 q.num.toNat : ℤ) - (ilog2 q.den : ℤ) + 1)
            * (2 : ℚ) ^ ilog2 q.den := by
          rw [← zpow_natCast, ← zpow_natCast, ← zpow_add₀ (by norm_num : (2 : ℚ) ≠ 0)]
          congr 1
          push_cast
          ring
      _ ≤ (2 : ℚ) ^ ((ilog2 q.num.toNat : ℤ) - (ilog2 q.den : ℤ) + 1) * (q.den : ℚ) := by
          apply mul_le_mul_of_nonneg_left C1
          exact (zpow_pos two_pos _).le
  rw [← hqe] at hlow hhigh
  unfold ilogb
  simp only
  split_ifs with h
  · exact ⟨h, hhigh⟩
  · constructor
    · exact hlow.le
    · rw [sub_add_cancel]
      exact not_le.mp h

theorem roundHalfEven_natCast (n : ℕ) : roundHalfEven (n : ℚ) = n := by
  unfold roundHalfEven
  simp

/-- Rounding is exact on every `m * 2 ^ e` whose `m` fits in 53 bits. -/
theorem ofRat_exact (m : ℕ) (e : ℤ) (hm : m < 2 ^ 53) :
    (ofRat ((m : ℚ) * (2 : ℚ) ^ e)).toRat = (m : ℚ) * (2 : ℚ) ^ e := by
  have two_pos : (0 : ℚ) < 2 := by norm_num
  have two_ne : (2 : ℚ) ≠ 0 := by norm_num
  rcases Nat.eq_zero_or_pos m with h0 | hpos
  · subst h0
    simp [ofRat, toRat]
  · have hq : 0 < (m : ℚ) * (2 : ℚ) ^ e :=
      mul_pos (by exact_mod_cast hpos) (zpow_pos two_pos _)
    obtain ⟨hlo, hhi⟩ := ilogb_spec _ hq
    generalize hs : ilogb ((m : ℚ) * (2 : ℚ) ^ e) - 52 = s at *
    have hL : ilogb ((m : ℚ) * (2 : ℚ) ^ e) = s + 52 := by omega
    rw [hL] at hlo hhi
    -- the scaled mantissa
    have hx : (m : ℚ) * (2 : ℚ) ^ e / (2 : ℚ) ^ s = (m : ℚ) * (2 : ℚ) ^ (e - s) := by
      rw [zpow_sub₀ two_ne]
      ring
    have hx_lo : (2 : ℚ) ^ (52 : ℤ) ≤ (m : ℚ) * (2 : ℚ) ^ (e - s) := by
      rw [← hx, le_div_iff₀ (zpow_pos two_pos _), ← zpow_add₀ two_ne]
      rw [show (52 : ℤ) + s = s + 52 by ring]
      exact hlo
    have hx_hi : (m : ℚ) * (2 : ℚ) ^ (e - s) < (2 : ℚ) ^ (53 : ℤ) := by
      rw [← hx, div_lt_iff₀ (zpow_pos two_pos _), ← zpow_add₀ two_ne]
      rw [show (53 : ℤ) + s = s + 52 + 1 by ring]
      exact hhi
    have hes : 0 ≤ e - s := by
      by_contra hneg
      have hle : e - s ≤ -1 := by omega
      have h2 : (2 : ℚ) ^ (e - s) ≤ (2 : ℚ) ^ (-1 : ℤ) :=
        zpow_le_zpow_right₀ (by norm_num) hle
      have hmq : (m : ℚ) < 2 ^ 53 := by exact_mod_cast hm
      have : (m : ℚ) * (2 : ℚ) ^ (e - s) < (2 : ℚ) ^ (52 : ℤ) := by
        calc (m : ℚ) * (2 : ℚ) ^ (e - s) ≤ (m : ℚ) * (2 : ℚ) ^ (-1 : ℤ) :=
              mul_le_mul_of_nonneg_left h2 (by positivity)
          _ < 2 ^ 53 * (2 : ℚ) ^ (-1 : ℤ) :=
              mul_lt_mul_of_pos_right hmq (zpow_pos two_pos _)
          _ = (2 : ℚ) ^ (52 : ℤ) := by norm_num
      exact absurd hx_lo (not_le.mpr this)
    obtain ⟨t, ht⟩ := Int.eq_ofNat_of_zero_le hes
    have hxn : (m : ℚ) * (2 : ℚ) ^ (e - s) = ((m * 2 ^ t : ℕ) : ℚ) := by
      rw [ht, zpow_natCast]
      push_cast
      ring
    have hne : m * 2 ^ t ≠ 2 ^ 53 := by
      intro heq
      rw [hxn, heq] at hx_hi
      norm_num at hx_hi
    unfold ofRat
    rw [if_neg (not_le.mpr hq)]
    simp only [hs]
    rw [hx, hxn, roundHalfEven_natCast, if_neg hne]
    unfold toRat
    simp only
    rw [← hxn, mul_assoc, ← zpow_add₀ two_ne]
    congr 2
    ring

theorem ofNat_exact (n : ℕ) (h : n < 2 ^ 53) : (ofNat n).toRat = (n : ℚ) := by
  have := ofRat_exact n 0 h
  simpa [ofNat] using this

/-- Rounding to the nearest natural number moves a non-negative rational by
at most one half, and lands on an even number when it moves it by exactly one
half. -/
theorem roundHalfEven_near (x : ℚ) (hx : 0 ≤ x) :
    |(roundHalfEven x : ℚ) - x| ≤ 1 / 2 ∧
    (|(roundHalfEven x : ℚ) - x| = 1 / 2 → roundHalfEven x % 2 = 0) := by
  have hfl0 : 0 ≤ ⌊x⌋ := Int.floor_nonneg.mpr hx
  have hf : ((⌊x⌋.toNat : ℕ) : ℚ) = ((⌊x⌋ : ℤ) : ℚ) := by
    rw [← Int.cast_natCast, Int.toNat_of_nonneg hfl0]
  have h1 : ((⌊x⌋ : ℤ) : ℚ) ≤ x := Int.floor_le x
  have h2 : x < ((⌊x⌋ : ℤ) : ℚ) + 1 := Int.lt_floor_add_one x
  unfold roundHalfEven
  simp only
  rw [hf]
  split_ifs with ha hb hc
  · rw [hf]
    constructor
    · rw [abs_le]
      constructor <;> linarith
    · intro habs
      rw [abs_eq (by norm_num)] at habs
      rcases habs with h | h <;> linarith
  · push_cast
    rw [hf]
    constructor
    · rw [abs_le]
      constructor <;> linarith
    · intro habs
      rw [abs_eq (by norm_num)] at habs
      rcases habs with h | h <;> linarith
  · rw [hf]
    exact ⟨by rw [abs_le]; constructor <;> linarith, fun _ => hc⟩
  · push_cast
    rw [hf]
    refine ⟨by rw [abs_le]; constructor <;> linarith, fun _ => ?_⟩
    omega

/-- The model rounds to nearest: for positive `q` the result has a 53-bit
mantissa with the top bit set, lies within half a unit in the last place of
`q`, and when it lies exactly half a unit away its mantissa is even. -/
theorem ofRat_nearest (q : ℚ) (hq : 0 < q) :
    2 ^ 52 ≤ (ofRat q).mant ∧ (ofRat q).mant < 2 ^ 53 ∧
    |(ofRat q).toRat - q| ≤ (2 : ℚ) ^ (ilogb q - 53) ∧
    (|(ofRat q).toRat - q| = (2 : ℚ) ^ (ilogb q - 53) → (ofRat q).mant % 2 = 0) := by
  have two_pos : (0 : ℚ) < 2 := by norm_num
  have two_ne : (2 : ℚ) ≠ 0 := by norm_num
  obtain ⟨hlo, hhi⟩ := ilogb_spec q hq
  generalize hs : ilogb q - 52 = s at *
  have hL : ilogb q = s + 52 := by omega
  have hL53 : ilogb q - 53 = s - 1 := by omega
  rw [hL] at hlo hhi
  rw [hL53]
  have hspos : (0 : ℚ) < (2 : ℚ) ^ s := zpow_pos two_pos _
  have hx_lo : (2 : ℚ) ^ (52 : ℕ) ≤ q / (2 : ℚ) ^ s := by
    rw [le_div_iff₀ hspos, ← zpow_natCast, ← zpow_add₀ two_ne]
    rw [show ((52 : ℕ) : ℤ) + s = s + 52 by push_cast; ring]
    exact hlo
  have hx_hi : q / (2 : ℚ) ^ s < (2 : ℚ) ^ (53 : ℕ) := by
    rw [div_lt_iff₀ hspos, ← zpow_natCast, ← zpow_add₀ two_ne]
    rw [show ((53 : ℕ) : ℤ) + s = s + 52 + 1 by push_cast; ring]
    exact hhi
  have hx0 : 0 ≤ q / (2 : ℚ) ^ s := by positivity
  obtain ⟨hnear, htie⟩ := roundHalfEven_near (q / (2 : ℚ) ^ s) hx0
  generalize hm : roundHalfEven (q / (2 : ℚ) ^ s) = m at *
  -- the rounded mantissa stays between the two powers of two
  have hm_lo : 2 ^ 52 ≤ m := by
    by_contra hlt
    have hle : m + 1 ≤ 2 ^ 52 := by omega
    have hleq : (m : ℚ) + 1 ≤ (2 : ℚ) ^ (52 : ℕ) := by exact_mod_cast hle
    rw [abs_le] at hnear
    linarith [hnear.1]
  have hm_hi : m ≤ 2 ^ 53 := by
    by_contra hgt
    have hle : 2 ^ 53 + 1 ≤ m := by omega
    have hleq : (2 : ℚ) ^ (53 : ℕ) + 1 ≤ (m : ℚ) := by exact_mod_cast hle
    rw [abs_le] at hnear
    linarith [hnear.2]
  -- value of the result in both branches
  have hval : (ofRat q).toRat = (m : ℚ) * (2 : ℚ) ^ s := by
    unfold ofRat
    rw [if_neg (not_le.mpr hq)]
    simp only [hs, hm]
    split_ifs with h53
    · unfold toRat
      simp only
      rw [h53, zpow_add₀ two_ne]
      push_cast
      ring
    · rfl
  have hdist : |(ofRat q).toRat - q| = |(m : ℚ) - q / (2 : ℚ) ^ s| * (2 : ℚ) ^ s := by
    rw [hval, ← abs_of_pos hspos, ← abs_mul, abs_of_pos hspos]
    congr 1
    field_simp
  have hhalf : (2 : ℚ) ^ (s - 1) = 1 / 2 * (2 : ℚ) ^ s := by
    rw [zpow_sub₀ two_ne]
    simp
    ring
  have hmant : (ofRat q).mant = if m = 2 ^ 53 then 2 ^ 52 else m := by
    unfold ofRat
    rw [if_neg (not_le.mpr hq)]
    simp only [hs, hm]
    split_ifs <;> rfl
  refine ⟨?_, ?_, ?_, ?_⟩
  · rw [hmant]
    split_ifs
    · exact le_refl _
    · exact hm_lo
  · rw [hmant]
    split_ifs with h53
    · norm_num
    · omega
  · rw [hdist, hhalf]
    exact mul_le_mul_of_nonneg_right hnear hspos.le
  · intro heq
    rw [hdist, hhalf] at heq
    have := mul_right_cancel₀ hspos.ne' heq
    have hev := htie this
    rw [hmant]
    split_ifs with h53
    · norm_num
    · exact hev

end F64

/-! ### Memory rounding -/

/-- On byte counts `b` with `25 * b < 2 ^ 53` every step of `getMemInfo` but
the last division is exact, so the result is the rounding of
`round(b * 100 / 2^30) / 100`. -/
theorem memInGB_small (b : ℕ) (hb : 25 * b < 2 ^ 53) :
    F64.div (F64.mathRound (F64.mul (F64.div (F64.ofNat b) (F64.ofNat (1024 * 1024 * 1024)))
      (F64.ofNat 100))) (F64.ofNat 100) = F64.ofRat (memInGBSpec b) := by
  have two_ne : (2 : ℚ) ≠ 0 := by norm_num
  have hb53 : b < 2 ^ 53 := by omega
  have h1 : (F64.ofNat b).toRat = (b : ℚ) := F64.ofNat_exact b hb53
  have h2 : (F64.ofNat (1024 * 1024 * 1024)).toRat = (2 : ℚ) ^ (30 : ℤ) := by
    rw [F64.ofNat_exact _ (by norm_num)]
    norm_num
  have h3 : (F64.div (F64.ofNat b) (F64.ofNat (1024 * 1024 * 1024))).toRat
      = (b : ℚ) * (2 : ℚ) ^ (-30 : ℤ) := by
    unfold F64.div
    rw [h1, h2, div_eq_mul_inv, ← zpow_neg]
    exact F64.ofRat_exact b (-30) hb53
  have h4 : (F64.ofNat 100).toRat = 100 := by
    rw [F64.ofNat_exact _ (by norm_num)]
    norm_num
  have h5 : (F64.mul (F64.div (F64.ofNat b) (F64.ofNat (1024 * 1024 * 1024)))
      (F64.ofNat 100)).toRat = (b : ℚ) * 100 / 2 ^ 30 := by
    unfold F64.mul
    rw [h3, h4]
    have e1 : (b : ℚ) * (2 : ℚ) ^ (-30 : ℤ) * 100 = ((25 * b : ℕ) : ℚ) * (2 : ℚ) ^ (-28 : ℤ) := by
      push_cast
      norm_num
      ring
    rw [e1, F64.ofRat_exact (25 * b) (-28) hb]
    push_cast
    norm_num
    ring
  -- the rounded integer
  have hy0 : (0 : ℚ) ≤ (b : ℚ) * 100 / 2 ^ 30 + 1 / 2 := by positivity
  have hfl0 : 0 ≤ ⌊(b : ℚ) * 100 / 2 ^ 30 + 1 / 2⌋ := Int.floor_nonneg.mpr hy0
  have hK : ((⌊(b : ℚ) * 100 / 2 ^ 30 + 1 / 2⌋.toNat : ℕ) : ℚ)
      = ((⌊(b : ℚ) * 100 / 2 ^ 30 + 1 / 2⌋ : ℤ) : ℚ) := by
    rw [← Int.cast_natCast, Int.toNat_of_nonneg hfl0]
  have hKlt : ⌊(b : ℚ) * 100 / 2 ^ 30 + 1 / 2⌋.toNat < 2 ^ 53 := by
    have hbq : (25 : ℚ) * b < 2 ^ 53 := by exact_mod_cast hb
    have hle : ((⌊(b : ℚ) * 100 / 2 ^ 30 + 1 / 2⌋ : ℤ) : ℚ) ≤ (b : ℚ) * 100 / 2 ^ 30 + 1 / 2 :=
      Int.floor_le _
    have hlt : ((⌊(b : ℚ) * 100 / 2 ^ 30 + 1 / 2⌋.toNat : ℕ) : ℚ) < 2 ^ 53 := by
      rw [hK]
      have : (b : ℚ) * 100 / 2 ^ 30 + 1 / 2 < 2 ^ 53 := by
        have h100 : (b : ℚ) * 100 / 2 ^ 30 = (25 * b) / 2 ^ 28 := by
          norm_num
          ring
        rw [h100]
        have : (25 * (b : ℚ)) / 2 ^ 28 < 2 ^ 53 / 2 ^ 28 :=
          div_lt_div_of_pos_right hbq (by positivity)
        norm_num at this ⊢
        linarith
      linarith
    exact_mod_cast hlt
  have h6 : (F64.mathRound (F64.mul (F64.div (F64.ofNat b) (F64.ofNat (1024 * 1024 * 1024)))
      (F64.ofNat 100))).toRat = ((⌊(b : ℚ) * 100 / 2 ^ 30 + 1 / 2⌋ : ℤ) : ℚ) := by
    unfold F64.mathRound
    rw [h5]
    have := F64.ofRat_exact _ 0 hKlt
    simp only [zpow_zero, mul_one] at this
    rw [this, hK]
  unfold F64.div at *
  rw [h6, h4]
  rfl

/-- The value `getMemInfo` returns when `syscall.Sysinfo` succeeds. -/
theorem getMemInfo_ok (w : World) (info : SysinfoT) (hsys : w.sysinfoResult = .ok info) :
    (getMemInfo w).1 = .ok (F64.div (F64.mathRound (F64.mul
      (F64.div (F64.ofNat ((info.Totalram * info.Unit) % 2 ^ 64))
        (F64.ofNat (1024 * 1024 * 1024))) (F64.ofNat 100))) (F64.ofNat 100)) := by
  simp [getMemInfo, hsys]

/-- Counterexample to C7: for 360287986295767 bytes (about 327.68 TiB)
`round(b * 100 / 2^30)` is 33554433, since `b * 100 / 2^30` lies `2^-28` below
33554433.5; the product `memInGB*100` is not representable in `float64` and
rounds up to 33554433.5, so `getMemInfo` returns the `float64` for 335544.34,
not the one for 335544.33.  The same happens for the page-aligned count
1475739525966557184: 1374389534.79 instead of 1374389534.78. -/
theorem memInGB_large_counterexample :
    (getMemInfo ((sampleWorld 1000).withSysinfo ⟨360287986295767, 1⟩)).1
      = .ok (F64.ofRat (33554434 / 100)) ∧
    memInGBSpec 360287986295767 = 33554433 / 100 ∧
    F64.ofRat (33554434 / 100) ≠ F64.ofRat (33554433 / 100) ∧
    (getMemInfo ((sampleWorld 1000).withSysinfo ⟨1475739525966557184, 1⟩)).1
      = .ok (F64.ofRat (137438953479 / 100)) ∧
    memInGBSpec 1475739525966557184 = 137438953478 / 100 ∧
    F64.ofRat (137438953479 / 100) ≠ F64.ofRat (137438953478 / 100) := by
  refine ⟨?_, by decide!, by decide!, ?_, by decide!, by decide!⟩
  · rw [getMemInfo_ok _ ⟨360287986295767, 1⟩ rfl]
    exact congrArg Except.ok (by decide!)
  · rw [getMemInfo_ok _ ⟨1475739525966557184, 1⟩ rfl]
    exact congrArg Except.ok (by decide!)

/-- C7, amended. For every byte count `b = Totalram * Unit` with
`25 * b < 2^53` (every size below about 327 TiB), `getMemInfo` returns the
`float64` nearest to `round(b * 100 / 2^30) / 100`, the value of `b / 2^30`
rounded to two decimal places with halves away from zero.  In particular
17178610893 bytes, which is 15.9988281252 GB, give the `float64` 16. -/
theorem getMemInfo_rounds_two_decimals (w : World) (info : SysinfoT)
    (hsys : w.sysinfoResult = .ok info)
    (hsmall : 25 * (info.Totalram * info.Unit) < 2 ^ 53) :
    (getMemInfo w).1 = .ok (F64.ofRat (memInGBSpec (info.Totalram * info.Unit))) ∧
    memInGBSpec 17178610893 = 16 ∧
    F64.ofRat 16 = ⟨2 ^ 52, -48⟩ ∧
    F64.toRat ⟨2 ^ 52, -48⟩ = 16 := by
  refine ⟨?_, by decide!, by decide!, by decide!⟩
  rw [getMemInfo_ok w info hsys]
  have hmod : (info.Totalram * info.Unit) % 2 ^ 64 = info.Totalram * info.Unit :=
    Nat.mod_eq_of_lt (by omega)
  rw [hmod, memInGB_small _ hsmall]

/-- Witness for C7 (amended): the byte count of the example, 17178610893. -/
theorem getMemInfo_rounds_two_decimals_witness :
    25 * (17178610893 * 1) < 2 ^ 53 ∧
    (getMemInfo ((sampleWorld 1000).withSysinfo ⟨17178610893, 1⟩)).1
      = .ok (F64.ofRat (memInGBSpec (17178610893 * 1))) :=
  ⟨by decide, (getMemInfo_rounds_two_decimals
    ((sampleWorld 1000).withSysinfo ⟨17178610893, 1⟩) ⟨17178610893, 1⟩ rfl (by decide)).1⟩

/-! ### Basic facts about traces and the clock -/

theorem performed_append (w w1 : World) (evs : List Event)
    (h : w1.trace = w.trace ++ evs) : performed w w1 = evs := by
  simp [performed, h]

/-- When the exact difference fits in an int64 it is what `time.Since` returns. -/
theorem timeSince_eq_sub (now t : Int) (hlo : minDuration ≤ now - t)
    (hhi : now - t ≤ maxDuration) : timeSince now t = now - t := by
  unfold timeSince timeSub
  unfold minDuration maxDuration at *
  rw [if_neg (by omega), if_neg (by omega)]

/-- Against any TTL above the least duration, the saturated age compares like
the exact difference of the two instants. -/
theorem timeSince_lt_iff (now t ttl : Int) (hmin : minDuration < ttl)
    (hmax : ttl ≤ maxDuration) : timeSince now t < ttl ↔ now - t < ttl := by
  unfold timeSince timeSub
  unfold minDuration maxDuration at *
  split_ifs <;> omega

/-! ### Host inspector -/

theorem getMemInfo_world (w : World) : (getMemInfo w).2 = w.emit Event.sysinfo := by
  unfold getMemInfo
  cases w.sysinfoResult <;> rfl

theorem osInventory_error (w : World) (err : GoError)
    (h : w.sysinfoResult = .error err) :
    osInventory w = (.error err, w.emit Event.sysinfo) := by
  simp [osInventory, getMemInfo, h]

theorem osInventory_ok (w : World) (info : SysinfoT) (h : w.sysinfoResult = .ok info) :
    ∃ memInGB, (getMemInfo w).1 = .ok memInGB ∧
      osInventory w =
        (.ok [("os", InvValue.str w.goos), ("arch", InvValue.str w.goarch),
              ("cpus", InvValue.int w.numCPU), ("memInGB", InvValue.float memInGB)],
         w.emit Event.sysinfo) := by
  simp [osInventory, getMemInfo, h]

/-! ### Inventory cache -/

/-- When the memory query fails, `RecordInventory` returns its error after
that single effect. -/
theorem recordInventory_sysinfo_error (lib : Lib) (dir : String) (ttl : Duration)
    (w : World) (err : GoError) (h : w.sysinfoResult = .error err) :
    (RecordInventory lib dir ttl w).1 = .error err ∧
    (RecordInventory lib dir ttl w).2.trace = w.trace ++ [Event.sysinfo] ∧
    (RecordInventory lib dir ttl w).2.files = w.files := by
  have hos := osInventory_error w err h
  simp [RecordInventory, hos, World.emit]

/-- On a cache hit with the memory query and the directory in order,
`RecordInventory` succeeds after exactly three effects and changes no file. -/
theorem recordInventory_hit (lib : Lib) (dir : String) (ttl : Duration) (w : World)
    (info : SysinfoT) (f : FileNode) (hsys : w.sysinfoResult = .ok info)
    (hdir : w.mkdirAllErr dir = none)
    (hfile : w.files (lib.filepathJoin dir "inventory.json") = some f)
    (hage : timeSince w.now f.modTime < ttl) :
    (RecordInventory lib dir ttl w).1 = .ok () ∧
    (RecordInventory lib dir ttl w).2.trace =
      w.trace ++ [Event.sysinfo, Event.mkdirAll dir,
        Event.stat (lib.filepathJoin dir "inventory.json")] ∧
    (RecordInventory lib dir ttl w).2.files = w.files := by
  obtain ⟨m, -, hos⟩ := osInventory_ok w info hsys
  simp [RecordInventory, hos, World.emit, hdir, hfile, hage]

/-- When `os.MkdirAll` fails, `RecordInventory` stops there. -/
theorem recordInventory_mkdir_error (lib : Lib) (dir : String) (ttl : Duration) (w : World)
    (info : SysinfoT) (err : GoError) (hsys : w.sysinfoResult = .ok info)
    (hdir : w.mkdirAllErr dir = some err) :
    (RecordInventory lib dir ttl w).1 = .error err ∧
    (RecordInventory lib dir ttl w).2.trace =
      w.trace ++ [Event.sysinfo, Event.mkdirAll dir] ∧
    (RecordInventory lib dir ttl w).2.files = w.files := by
  obtain ⟨m, -, hos⟩ := osInventory_ok w info hsys
  simp [RecordInventory, hos, World.emit, hdir]

/-- The text written for the inventory map: the four entries in key order. -/
theorem encodeIndent_inventory (lib : Lib) (goos goarch : String) (cpus : Nat) (mem : F64) :
    encodeIndent lib [("os", InvValue.str goos), ("arch", InvValue.str goarch),
        ("cpus", InvValue.int cpus), ("memInGB", InvValue.float mem)] =
      "\x7b\n" ++ ("  " ++ lib.jsonString "arch" ++ ": " ++ lib.jsonString goarch ++ ",\n" ++
        ("  " ++ lib.jsonString "cpus" ++ ": " ++ toString cpus ++ ",\n" ++
        ("  " ++ lib.jsonString "memInGB" ++ ": " ++ lib.jsonFloat mem ++ ",\n" ++
        ("  " ++ lib.jsonString "os" ++ ": " ++ lib.jsonString goos)))) ++ "\n\x7d\n" := by
  have h1 : ("cpus".toList < "memInGB".toList) = True := eq_true (by decide)
  have h2 : ("arch".toList < "cpus".toList) = True := eq_true (by decide)
  have h3 : ("os".toList < "arch".toList) = False := eq_false (by decide)
  have h4 : ("os".toList < "cpus".toList) = False := eq_false (by decide)
  have h5 : ("os".toList < "memInGB".toList) = False := eq_false (by decide)
  simp only [encodeIndent, sortByKey, insertByKey, h1, h2, h3, h4, h5, if_true, if_false,
    List.map, encodeValue, String.intercalate, String.intercalate.go]
  simp [String.append_assoc]

/-- On a cache miss with every system call succeeding, `RecordInventory`
creates the file, writes the encoded inventory in one write and closes it. -/
theorem recordInventory_miss (lib : Lib) (dir : String) (ttl : Duration) (w : World)
    (info : SysinfoT) (hsys : w.sysinfoResult = .ok info)
    (hdir : w.mkdirAllErr dir = none)
    (hmiss : ∀ f, w.files (lib.filepathJoin dir "inventory.json") = some f →
      ¬ timeSince w.now f.modTime < ttl)
    (hcreate : w.createErr (lib.filepathJoin dir "inventory.json") = none)
    (hwrite : w.writeErr (lib.filepathJoin dir "inventory.json") = none) :
    ∃ memInGB data, (getMemInfo w).1 = .ok memInGB ∧
      data = encodeIndent lib [("os", InvValue.str w.goos), ("arch", InvValue.str w.goarch),
        ("cpus", InvValue.int w.numCPU), ("memInGB", InvValue.float memInGB)] ∧
      (RecordInventory lib dir ttl w).1 = .ok () ∧
      (RecordInventory lib dir ttl w).2.trace =
        w.trace ++ [Event.sysinfo, Event.mkdirAll dir,
          Event.stat (lib.filepathJoin dir "inventory.json"),
          Event.create (lib.filepathJoin dir "inventory.json"),
          Event.write (lib.filepathJoin dir "inventory.json") data,
          Event.close (lib.filepathJoin dir "inventory.json")] ∧
      (RecordInventory lib dir ttl w).2.files (lib.filepathJoin dir "inventory.json") =
        some ⟨data, w.fsClock⟩ ∧
      (∀ p, p ≠ lib.filepathJoin dir "inventory.json" →
        (RecordInventory lib dir ttl w).2.files p = w.files p) ∧
      (RecordInventory lib dir ttl w).2.now = w.now ∧
      (RecordInventory lib dir ttl w).2.sysinfoResult = w.sysinfoResult ∧
      (RecordInventory lib dir ttl w).2.mkdirAllErr = w.mkdirAllErr ∧
      (RecordInventory lib dir ttl w).2.createErr = w.createErr ∧
      (RecordInventory lib dir ttl w).2.writeErr = w.writeErr ∧
      (RecordInventory lib dir ttl w).2.fsClock = w.fsClock := by
  obtain ⟨m, hm, hos⟩ := osInventory_ok w info hsys
  refine ⟨m, _, hm, rfl, ?_⟩
  cases hfile : w.files (lib.filepathJoin dir "inventory.json") with
  | none =>
    simp [RecordInventory, recordInventoryWrite, hos, World.emit, World.setFile, hdir, hfile,
      hcreate, hwrite]
    intro p hp
    simp [hp]
  | some f =>
    have hage := hmiss f hfile
    simp [RecordInventory, recordInventoryWrite, hos, World.emit, World.setFile, hdir, hfile,
      hcreate, hwrite, hage]
    intro p hp
    simp [hp]

/-- A modification time that is not ahead of the clock gives a non-negative age. -/
theorem timeSince_nonneg (now t : Int) (h : t ≤ now) : 0 ≤ timeSince now t := by
  unfold timeSince timeSub
  unfold minDuration maxDuration
  split_ifs <;> omega

/-- Two calls of `RecordInventory`, the first on a cache miss, the second
at a clock reading `now2` at which the file just written, stamped by the file
system, is younger than the TTL. -/
theorem recordInventory_twice (lib : Lib) (dir : String) (ttl : Duration) (w : World)
    (info : SysinfoT) (now2 : Time) (hsys : w.sysinfoResult = .ok info)
    (hdir : w.mkdirAllErr dir = none)
    (hmiss : ∀ f, w.files (lib.filepathJoin dir "inventory.json") = some f →
      ¬ timeSince w.now f.modTime < ttl)
    (hcreate : w.createErr (lib.filepathJoin dir "inventory.json") = none)
    (hwrite : w.writeErr (lib.filepathJoin dir "inventory.json") = none)
    (hsoon : timeSince now2 w.fsClock < ttl) :
    ∃ data,
      (RecordInventory lib dir ttl w).1 = .ok () ∧
      (RecordInventory lib dir ttl ((RecordInventory lib dir ttl w).2.atTime now2)).1 = .ok () ∧
      performed w (RecordInventory lib dir ttl w).2 =
        [Event.sysinfo, Event.mkdirAll dir,
          Event.stat (lib.filepathJoin dir "inventory.json"),
          Event.create (lib.filepathJoin dir "inventory.json"),
          Event.write (lib.filepathJoin dir "inventory.json") data,
          Event.close (lib.filepathJoin dir "inventory.json")] ∧
      performed ((RecordInventory lib dir ttl w).2.atTime now2)
          (RecordInventory lib dir ttl ((RecordInventory lib dir ttl w).2.atTime now2)).2 =
        [Event.sysinfo, Event.mkdirAll dir,
          Event.stat (lib.filepathJoin dir "inventory.json")] ∧
      (RecordInventory lib dir ttl ((RecordInventory lib dir ttl w).2.atTime now2)).2.files
          (lib.filepathJoin dir "inventory.json") = some ⟨data, w.fsClock⟩ := by
  obtain ⟨m, data, -, -, hok, htr, hfile, -, hnow, hsys1, hdir1, -⟩ :=
    recordInventory_miss lib dir ttl w info hsys hdir hmiss hcreate hwrite
  have hsys2 : ((RecordInventory lib dir ttl w).2.atTime now2).sysinfoResult = .ok info := by
    simp [World.atTime, hsys1, hsys]
  have hdir2 : ((RecordInventory lib dir ttl w).2.atTime now2).mkdirAllErr dir = none := by
    simp [World.atTime, hdir1, hdir]
  have hfile2 : ((RecordInventory lib dir ttl w).2.atTime now2).files
      (lib.filepathJoin dir "inventory.json") = some ⟨data, w.fsClock⟩ := by
    simp [World.atTime, hfile]
  have hage2 : timeSince ((RecordInventory lib dir ttl w).2.atTime now2).now
      (FileNode.mk data w.fsClock).modTime < ttl := by
    simpa [World.atTime] using hsoon
  obtain ⟨hok2, htr2, hfiles2⟩ := recordInventory_hit lib dir ttl _ info _ hsys2 hdir2 hfile2 hage2
  refine ⟨data, hok, hok2, performed_append _ _ _ htr, performed_append _ _ _ htr2, ?_⟩
  rw [hfiles2]
  exact hfile2

/-- Against a TTL above the least duration, an exact difference below the TTL
gives a saturated age below the TTL. -/
theorem timeSince_lt_of_sub_lt (now t ttl : Int) (hmin : minDuration < ttl)
    (h : now - t < ttl) : timeSince now t < ttl := by
  unfold timeSince timeSub
  unfold minDuration at *
  unfold maxDuration
  split_ifs <;> omega

/-- Two calls of `RecordInventory`, the first on a cache miss, the second
at a clock reading `now2` at which the file just written, stamped by the file
system, is not younger than the TTL: both calls write the file. -/
theorem recordInventory_twice_stale (lib : Lib) (dir : String) (ttl : Duration) (w : World)
    (info : SysinfoT) (now2 : Time) (hsys : w.sysinfoResult = .ok info)
    (hdir : w.mkdirAllErr dir = none)
    (hmiss : ∀ f, w.files (lib.filepathJoin dir "inventory.json") = some f →
      ¬ timeSince w.now f.modTime < ttl)
    (hcreate : w.createErr (lib.filepathJoin dir "inventory.json") = none)
    (hwrite : w.writeErr (lib.filepathJoin dir "inventory.json") = none)
    (hlate : ¬ timeSince now2 w.fsClock < ttl) :
    ∃ data data2,
      performed w (RecordInventory lib dir ttl w).2 =
        [Event.sysinfo, Event.mkdirAll dir,
          Event.stat (lib.filepathJoin dir "inventory.json"),
          Event.create (lib.filepathJoin dir "inventory.json"),
          Event.write (lib.filepathJoin dir "inventory.json") data,
          Event.close (lib.filepathJoin dir "inventory.json")] ∧
      performed ((RecordInventory lib dir ttl w).2.atTime now2)
          (RecordInventory lib dir ttl ((RecordInventory lib dir ttl w).2.atTime now2)).2 =
        [Event.sysinfo, Event.mkdirAll dir,
          Event.stat (lib.filepathJoin dir "inventory.json"),
          Event.create (lib.filepathJoin dir "inventory.json"),
          Event.write (lib.filepathJoin dir "inventory.json") data2,
          Event.close (lib.filepathJoin dir "inventory.json")] := by
  obtain ⟨m, data, -, -, -, htr, hfile, -, -, hsys1, hdir1, hcreate1, hwrite1, -⟩ :=
    recordInventory_miss lib dir ttl w info hsys hdir hmiss hcreate hwrite
  have hsys2 : ((RecordInventory lib dir ttl w).2.atTime now2).sysinfoResult = .ok info := by
    simp [World.atTime, hsys1, hsys]
  have hdir2 : ((RecordInventory lib dir ttl w).2.atTime now2).mkdirAllErr dir = none := by
    simp [World.atTime, hdir1, hdir]
  have hcreate2 : ((RecordInventory lib dir ttl w).2.atTime now2).createErr
      (lib.filepathJoin dir "inventory.json") = none := by
    simp [World.atTime, hcreate1, hcreate]
  have hwrite2 : ((RecordInventory lib dir ttl w).2.atTime now2).writeErr
      (lib.filepathJoin dir "inventory.json") = none := by
    simp [World.atTime, hwrite1, hwrite]
  have hmiss2 : ∀ f, ((RecordInventory lib dir ttl w).2.atTime now2).files
      (lib.filepathJoin dir "inventory.json") = some f →
      ¬ timeSince ((RecordInventory lib dir ttl w).2.atTime now2).now f.modTime < ttl := by
    intro f hf
    have hf2 : (RecordInventory lib dir ttl w).2.files
        (lib.filepathJoin dir "inventory.json") = some f := by
      simpa [World.atTime] using hf
    rw [hfile] at hf2
    have hfe : FileNode.mk data w.fsClock = f := Option.some.inj hf2
    subst hfe
    simpa [World.atTime] using hlate
  obtain ⟨m2, data2, -, -, -, htr2, -⟩ :=
    recordInventory_miss lib dir ttl _ info hsys2 hdir2 hmiss2 hcreate2 hwrite2
  exact ⟨data, data2, performed_append _ _ _ htr, performed_append _ _ _ htr2⟩

/-! ### Claims about the inventory cache -/

/-- Counterexample to C1: with the least duration as TTL and a file dated
`2^63 + 1` ns ahead of the clock, the age `now - modifiedTime` is below the
TTL, but `time.Since` saturates at the least duration, which is not below the
TTL: although the file exists with an age below the TTL, `RecordInventory`
creates it anew and writes it once, and its content and modification time
change. -/
theorem least_ttl_far_future_counterexample :
    farFutureWorld.files (sampleLib.filepathJoin sampleDir "inventory.json")
      = some ⟨"\x7b\x7d\n", 9223372036854775809⟩ ∧
    farFutureWorld.now - 9223372036854775809 < minDuration ∧
    (RecordInventory sampleLib sampleDir minDuration farFutureWorld).1 = .ok () ∧
    createsOf (sampleLib.filepathJoin sampleDir "inventory.json")
      (performed farFutureWorld
        (RecordInventory sampleLib sampleDir minDuration farFutureWorld).2) = 1 ∧
    writesTo (sampleLib.filepathJoin sampleDir "inventory.json")
      (performed farFutureWorld
        (RecordInventory sampleLib sampleDir minDuration farFutureWorld).2) = 1 ∧
    (RecordInventory sampleLib sampleDir minDuration farFutureWorld).2.files
      (sampleLib.filepathJoin sampleDir "inventory.json")
      ≠ some ⟨"\x7b\x7d\n", 9223372036854775809⟩ := by
  have hmiss : ∀ f, farFutureWorld.files (sampleLib.filepathJoin sampleDir "inventory.json")
      = some f → ¬ timeSince farFutureWorld.now f.modTime < minDuration := by
    intro f hf
    have hf0 : farFutureWorld.files (sampleLib.filepathJoin sampleDir "inventory.json")
        = some ⟨"\x7b\x7d\n", 9223372036854775809⟩ := by decide
    rw [hf0] at hf
    have hfe : FileNode.mk "\x7b\x7d\n" 9223372036854775809 = f := Option.some.inj hf
    subst hfe
    decide
  obtain ⟨m, data, -, -, hok, htr, hfile, -⟩ :=
    recordInventory_miss sampleLib sampleDir minDuration farFutureWorld ⟨17179869184, 1⟩
      rfl rfl hmiss rfl rfl
  rw [performed_append _ _ _ htr, hfile]
  refine ⟨by decide, by decide, hok, ?_, ?_, ?_⟩
  · simp [createsOf]
  · simp [writesTo]
  · intro h
    have h2 : farFutureWorld.fsClock = 9223372036854775809 :=
      congrArg FileNode.modTime (Option.some.inj h)
    revert h2
    decide

/-- C1, amended. For every TTL above the least duration, whenever the
inventory file exists and its age `now - modifiedTime` is below the TTL,
`RecordInventory` performs no `os.Create` and no write on that file, whatever
the memory query and `os.MkdirAll` do, and the file keeps its content and
last-modified time (no file at all is changed). -/
theorem cache_hit_leaves_file_untouched (lib : Lib) (dir : String) (ttl : Duration)
    (w : World) (f : FileNode)
    (hfile : w.files (lib.filepathJoin dir "inventory.json") = some f)
    (hmin : minDuration < ttl)
    (hage : w.now - f.modTime < ttl) :
    createsOf (lib.filepathJoin dir "inventory.json")
      (performed w (RecordInventory lib dir ttl w).2) = 0 ∧
    writesTo (lib.filepathJoin dir "inventory.json")
      (performed w (RecordInventory lib dir ttl w).2) = 0 ∧
    (RecordInventory lib dir ttl w).2.files (lib.filepathJoin dir "inventory.json") = some f ∧
    (RecordInventory lib dir ttl w).2.files = w.files := by
  have hsince : timeSince w.now f.modTime < ttl :=
    timeSince_lt_of_sub_lt w.now f.modTime ttl hmin hage
  cases hsys : w.sysinfoResult with
  | error err =>
    obtain ⟨-, ht, hf⟩ := recordInventory_sysinfo_error lib dir ttl w err hsys
    rw [performed_append w _ _ ht, hf]
    exact ⟨rfl, rfl, hfile, rfl⟩
  | ok info =>
    cases hdir : w.mkdirAllErr dir with
    | some err =>
      obtain ⟨-, ht, hf⟩ := recordInventory_mkdir_error lib dir ttl w info err hsys hdir
      rw [performed_append w _ _ ht, hf]
      exact ⟨rfl, rfl, hfile, rfl⟩
    | none =>
      obtain ⟨-, ht, hf⟩ := recordInventory_hit lib dir ttl w info f hsys hdir hfile hsince
      rw [performed_append w _ _ ht, hf]
      exact ⟨rfl, rfl, hfile, rfl⟩

/-- Witness for C1 (amended): a file written 600 ns ago under the ten-minute
TTL. -/
theorem cache_hit_leaves_file_untouched_witness :
    hitWorld.files (sampleLib.filepathJoin sampleDir "inventory.json")
      = some ⟨"\x7b\x7d\n", 400⟩ ∧
    minDuration < tenMinutes ∧
    hitWorld.now - 400 < tenMinutes ∧
    createsOf (sampleLib.filepathJoin sampleDir "inventory.json")
      (performed hitWorld (RecordInventory sampleLib sampleDir tenMinutes hitWorld).2) = 0 ∧
    writesTo (sampleLib.filepathJoin sampleDir "inventory.json")
      (performed hitWorld (RecordInventory sampleLib sampleDir tenMinutes hitWorld).2) = 0 ∧
    (RecordInventory sampleLib sampleDir tenMinutes hitWorld).2.files
      (sampleLib.filepathJoin sampleDir "inventory.json") = some ⟨"\x7b\x7d\n", 400⟩ ∧
    (RecordInventory sampleLib sampleDir tenMinutes hitWorld).2.files = hitWorld.files :=
  ⟨by decide, by decide, by decide,
    cache_hit_leaves_file_untouched sampleLib sampleDir tenMinutes hitWorld ⟨"\x7b\x7d\n", 400⟩
      (by decide) (by decide) (by decide)⟩

/-- Counterexample to C2: the inventory file is fresh and the directory can
be ensured, yet `RecordInventory` has called `syscall.Sysinfo` once and returns
the error of that call instead of success. -/
theorem cache_hit_regathers_counterexample :
    (hitWorld.withSysinfoError ePerm).files (sampleLib.filepathJoin sampleDir "inventory.json")
      = some ⟨"\x7b\x7d\n", 400⟩ ∧
    timeSince (hitWorld.withSysinfoError ePerm).now 400 < tenMinutes ∧
    (hitWorld.withSysinfoError ePerm).mkdirAllErr sampleDir = none ∧
    (RecordInventory sampleLib sampleDir tenMinutes (hitWorld.withSysinfoError ePerm)).1
      = .error ePerm ∧
    inspectorCalls (performed (hitWorld.withSysinfoError ePerm)
      (RecordInventory sampleLib sampleDir tenMinutes (hitWorld.withSysinfoError ePerm)).2) = 1 := by
  obtain ⟨h1, ht, -⟩ := recordInventory_sysinfo_error sampleLib sampleDir tenMinutes
    (hitWorld.withSysinfoError ePerm) ePerm rfl
  rw [performed_append _ _ _ ht]
  exact ⟨by decide, by decide, rfl, h1, rfl⟩

/-- C2, amended. On a cache hit with the directory ensured, `RecordInventory`
calls the Host Inspector exactly once, as its first effect and so before it
looks at the file, and never creates or writes the file.  When the OS memory
query succeeds the effects are, in this order, the `Sysinfo` call, the
`os.MkdirAll` call and the `os.Stat` of the file, and the result is success;
when the query fails the `Sysinfo` call is the only effect, the file is never
looked at, and the result is the error of the query. -/
theorem cache_hit_gathers_once (lib : Lib) (dir : String) (ttl : Duration)
    (w : World) (f : FileNode)
    (hfile : w.files (lib.filepathJoin dir "inventory.json") = some f)
    (hage : timeSince w.now f.modTime < ttl)
    (hdir : w.mkdirAllErr dir = none) :
    inspectorCalls (performed w (RecordInventory lib dir ttl w).2) = 1 ∧
    (performed w (RecordInventory lib dir ttl w).2).head? = some Event.sysinfo ∧
    createsOf (lib.filepathJoin dir "inventory.json")
      (performed w (RecordInventory lib dir ttl w).2) = 0 ∧
    writesTo (lib.filepathJoin dir "inventory.json")
      (performed w (RecordInventory lib dir ttl w).2) = 0 ∧
    (∀ info, w.sysinfoResult = .ok info →
      (RecordInventory lib dir ttl w).1 = .ok () ∧
      performed w (RecordInventory lib dir ttl w).2 =
        [Event.sysinfo, Event.mkdirAll dir,
          Event.stat (lib.filepathJoin dir "inventory.json")]) ∧
    (∀ err, w.sysinfoResult = .error err →
      (RecordInventory lib dir ttl w).1 = .error err ∧
      performed w (RecordInventory lib dir ttl w).2 = [Event.sysinfo]) := by
  cases hsys : w.sysinfoResult with
  | error err =>
    obtain ⟨hr, ht, -⟩ := recordInventory_sysinfo_error lib dir ttl w err hsys
    rw [performed_append w _ _ ht, hr]
    refine ⟨rfl, rfl, rfl, rfl, ?_, ?_⟩
    · intro info h
      cases h
    · intro e h
      cases h
      exact ⟨rfl, rfl⟩
  | ok info =>
    obtain ⟨hr, ht, -⟩ := recordInventory_hit lib dir ttl w info f hsys hdir hfile hage
    rw [performed_append w _ _ ht, hr]
    refine ⟨rfl, rfl, rfl, rfl, ?_, ?_⟩
    · intro _ _
      exact ⟨rfl, rfl⟩
    · intro e h
      cases h

/-- Witness for C2 (amended): the fresh sample file, memory query succeeding. -/
theorem cache_hit_gathers_once_witness :
    hitWorld.files (sampleLib.filepathJoin sampleDir "inventory.json")
      = some ⟨"\x7b\x7d\n", 400⟩ ∧
    timeSince hitWorld.now 400 < tenMinutes ∧
    hitWorld.mkdirAllErr sampleDir = none ∧
    inspectorCalls (performed hitWorld
      (RecordInventory sampleLib sampleDir tenMinutes hitWorld).2) = 1 ∧
    (RecordInventory sampleLib sampleDir tenMinutes hitWorld).1 = .ok () ∧
    performed hitWorld (RecordInventory sampleLib sampleDir tenMinutes hitWorld).2 =
      [Event.sysinfo, Event.mkdirAll sampleDir,
        Event.stat (sampleLib.filepathJoin sampleDir "inventory.json")] :=
  have h := cache_hit_gathers_once sampleLib sampleDir tenMinutes hitWorld ⟨"\x7b\x7d\n", 400⟩
    (by decide) (by decide) rfl
  ⟨by decide, by decide, rfl, h.1, (h.2.2.2.2.1 ⟨17179869184, 1⟩ rfl).1,
    (h.2.2.2.2.1 ⟨17179869184, 1⟩ rfl).2⟩

/-- C5. When the OS memory query fails with `err`, `osInventory` returns `err`
and no inventory, and `RecordInventory` returns the same `err`; the only effect
performed is the single `Sysinfo` call (so there is no retry and the inventory
file is neither created, truncated nor written), and no file changes. -/
theorem inspector_failure_aborts (lib : Lib) (dir : String) (ttl : Duration) (w : World)
    (err : GoError) (h : w.sysinfoResult = .error err) :
    (osInventory w).1 = .error err ∧
    (RecordInventory lib dir ttl w).1 = .error err ∧
    performed w (RecordInventory lib dir ttl w).2 = [Event.sysinfo] ∧
    (RecordInventory lib dir ttl w).2.files = w.files := by
  obtain ⟨hr, ht, hf⟩ := recordInventory_sysinfo_error lib dir ttl w err h
  refine ⟨?_, hr, performed_append w _ _ ht, hf⟩
  rw [osInventory_error w err h]

/-- Witness for C5: `Sysinfo` is not permitted on a host without inventory file. -/
theorem inspector_failure_aborts_witness :
    ((sampleWorld 1000).withSysinfoError ePerm).sysinfoResult = .error ePerm ∧
    (osInventory ((sampleWorld 1000).withSysinfoError ePerm)).1 = .error ePerm ∧
    (RecordInventory sampleLib sampleDir tenMinutes
      ((sampleWorld 1000).withSysinfoError ePerm)).1 = .error ePerm ∧
    performed ((sampleWorld 1000).withSysinfoError ePerm)
      (RecordInventory sampleLib sampleDir tenMinutes
        ((sampleWorld 1000).withSysinfoError ePerm)).2 = [Event.sysinfo] ∧
    (RecordInventory sampleLib sampleDir tenMinutes
      ((sampleWorld 1000).withSysinfoError ePerm)).2.files
      = ((sampleWorld 1000).withSysinfoError ePerm).files :=
  ⟨rfl, inspector_failure_aborts sampleLib sampleDir tenMinutes
    ((sampleWorld 1000).withSysinfoError ePerm) ePerm rfl⟩

/-- Counterexample to C3: with TTL 0 an existing file whose modification time
lies ahead of the clock has a negative age, so it counts as fresh: although
every system call succeeds, the file is neither created anew nor written and
keeps its old content. -/
theorem nonpositive_ttl_future_file_counterexample :
    futureWorld.files (sampleLib.filepathJoin sampleDir "inventory.json")
      = some ⟨"\x7b\x7d\n", 2000⟩ ∧
    (0 : Duration) ≤ 0 ∧
    (RecordInventory sampleLib sampleDir 0 futureWorld).1 = .ok () ∧
    createsOf (sampleLib.filepathJoin sampleDir "inventory.json")
      (performed futureWorld (RecordInventory sampleLib sampleDir 0 futureWorld).2) = 0 ∧
    writesTo (sampleLib.filepathJoin sampleDir "inventory.json")
      (performed futureWorld (RecordInventory sampleLib sampleDir 0 futureWorld).2) = 0 ∧
    (RecordInventory sampleLib sampleDir 0 futureWorld).2.files
      (sampleLib.filepathJoin sampleDir "inventory.json") = some ⟨"\x7b\x7d\n", 2000⟩ := by
  obtain ⟨hr, ht, hf⟩ := recordInventory_hit sampleLib sampleDir 0 futureWorld
    ⟨17179869184, 1⟩ ⟨"\x7b\x7d\n", 2000⟩ rfl rfl (by decide) (by decide)
  rw [performed_append _ _ _ ht, hf]
  exact ⟨by decide, le_refl _, hr, rfl, rfl, by decide⟩

/-- C3, amended. If the inventory file is absent, or its age as `time.Since`
measures it is at least the TTL (equality included), or the TTL is `≤ 0` and
the file's modification time is not ahead of the clock, and the memory query,
`os.MkdirAll`, `os.Create` and the write succeed, then `RecordInventory`
succeeds with exactly one `os.Create` and one write of the file, and the file
then holds the two-space-indented JSON object of the inventory just gathered,
with exactly the keys `arch`, `cpus`, `memInGB` and `os`. -/
theorem cache_miss_regenerates_once (lib : Lib) (dir : String) (ttl : Duration) (w : World)
    (info : SysinfoT) (hsys : w.sysinfoResult = .ok info)
    (hdir : w.mkdirAllErr dir = none)
    (hcreate : w.createErr (lib.filepathJoin dir "inventory.json") = none)
    (hwrite : w.writeErr (lib.filepathJoin dir "inventory.json") = none)
    (hmiss : w.files (lib.filepathJoin dir "inventory.json") = none ∨
      ∃ f, w.files (lib.filepathJoin dir "inventory.json") = some f ∧
        (ttl ≤ timeSince w.now f.modTime ∨ (ttl ≤ 0 ∧ f.modTime ≤ w.now))) :
    ∃ memInGB data, (getMemInfo w).1 = .ok memInGB ∧
      data = "\x7b\n" ++ ("  " ++ lib.jsonString "arch" ++ ": " ++ lib.jsonString w.goarch ++ ",\n" ++
        ("  " ++ lib.jsonString "cpus" ++ ": " ++ toString w.numCPU ++ ",\n" ++
        ("  " ++ lib.jsonString "memInGB" ++ ": " ++ lib.jsonFloat memInGB ++ ",\n" ++
        ("  " ++ lib.jsonString "os" ++ ": " ++ lib.jsonString w.goos)))) ++ "\n\x7d\n" ∧
      (RecordInventory lib dir ttl w).1 = .ok () ∧
      performed w (RecordInventory lib dir ttl w).2 =
        [Event.sysinfo, Event.mkdirAll dir,
          Event.stat (lib.filepathJoin dir "inventory.json"),
          Event.create (lib.filepathJoin dir "inventory.json"),
          Event.write (lib.filepathJoin dir "inventory.json") data,
          Event.close (lib.filepathJoin dir "inventory.json")] ∧
      createsOf (lib.filepathJoin dir "inventory.json")
        (performed w (RecordInventory lib dir ttl w).2) = 1 ∧
      writesTo (lib.filepathJoin dir "inventory.json")
        (performed w (RecordInventory lib dir ttl w).2) = 1 ∧
      (RecordInventory lib dir ttl w).2.files (lib.filepathJoin dir "inventory.json") =
        some ⟨data, w.fsClock⟩ := by
  have hstale : ∀ f, w.files (lib.filepathJoin dir "inventory.json") = some f →
      ¬ timeSince w.now f.modTime < ttl := by
    intro f hf
    rcases hmiss with hnone | ⟨g, hg, hcase⟩
    · rw [hnone] at hf
      cases hf
    · rw [hg] at hf
      have hfg : g = f := Option.some.inj hf
      subst hfg
      rcases hcase with hge | ⟨hle, hpast⟩
      · exact not_lt.mpr hge
      · have := timeSince_nonneg w.now g.modTime hpast
        exact not_lt.mpr (le_trans hle this)
  obtain ⟨m, data, hm, hdata, hok, htr, hfile, -⟩ :=
    recordInventory_miss lib dir ttl w info hsys hdir hstale hcreate hwrite
  rw [encodeIndent_inventory] at hdata
  have hp := performed_append w _ _ htr
  refine ⟨m, data, hm, hdata, hok, hp, ?_, ?_, hfile⟩
  · rw [hp]
    simp [createsOf]
  · rw [hp]
    simp [writesTo]

/-- Witness for C3 (amended): a host with no inventory file, TTL ten minutes. -/
theorem cache_miss_regenerates_once_witness :
    (sampleWorld 1000).files (sampleLib.filepathJoin sampleDir "inventory.json") = none ∧
    ∃ memInGB data, (getMemInfo (sampleWorld 1000)).1 = .ok memInGB ∧
      data = "\x7b\n" ++ ("  " ++ sampleLib.jsonString "arch" ++ ": "
          ++ sampleLib.jsonString (sampleWorld 1000).goarch ++ ",\n" ++
        ("  " ++ sampleLib.jsonString "cpus" ++ ": " ++ toString (sampleWorld 1000).numCPU ++ ",\n" ++
        ("  " ++ sampleLib.jsonString "memInGB" ++ ": " ++ sampleLib.jsonFloat memInGB ++ ",\n" ++
        ("  " ++ sampleLib.jsonString "os" ++ ": "
          ++ sampleLib.jsonString (sampleWorld 1000).goos)))) ++ "\n\x7d\n" ∧
      (RecordInventory sampleLib sampleDir tenMinutes (sampleWorld 1000)).1 = .ok () ∧
      performed (sampleWorld 1000)
          (RecordInventory sampleLib sampleDir tenMinutes (sampleWorld 1000)).2 =
        [Event.sysinfo, Event.mkdirAll sampleDir,
          Event.stat (sampleLib.filepathJoin sampleDir "inventory.json"),
          Event.create (sampleLib.filepathJoin sampleDir "inventory.json"),
          Event.write (sampleLib.filepathJoin sampleDir "inventory.json") data,
          Event.close (sampleLib.filepathJoin sampleDir "inventory.json")] ∧
      createsOf (sampleLib.filepathJoin sampleDir "inventory.json")
        (performed (sampleWorld 1000)
          (RecordInventory sampleLib sampleDir tenMinutes (sampleWorld 1000)).2) = 1 ∧
      writesTo (sampleLib.filepathJoin sampleDir "inventory.json")
        (performed (sampleWorld 1000)
          (RecordInventory sampleLib sampleDir tenMinutes (sampleWorld 1000)).2) = 1 ∧
      (RecordInventory sampleLib sampleDir tenMinutes (sampleWorld 1000)).2.files
          (sampleLib.filepathJoin sampleDir "inventory.json") =
        some ⟨data, (sampleWorld 1000).fsClock⟩ :=
  ⟨rfl, cache_miss_regenerates_once sampleLib sampleDir tenMinutes (sampleWorld 1000)
    ⟨17179869184, 1⟩ rfl rfl rfl rfl (Or.inl rfl)⟩

/-- Counterexample to C4, in two parts.  First, on a host without inventory
file and with every system call succeeding, two calls one nanosecond apart
under the ten-minute TTL write the file once but call `syscall.Sysinfo` twice,
not once.  Second, on a host whose file system clock lags the program's clock
by 5.29 ms, under a TTL of 1 ms the second call starts 139 µs after the first
and yet finds the file 5.429 ms old: both calls write the file. -/
theorem two_runs_inspect_twice_counterexample :
    ((sampleWorld 1000).files (sampleLib.filepathJoin sampleDir "inventory.json") = none ∧
    (0 : Duration) < tenMinutes ∧
    (1001 : Time) - (sampleWorld 1000).now < tenMinutes ∧
    (RecordInventory sampleLib sampleDir tenMinutes
      ((RecordInventory sampleLib sampleDir tenMinutes (sampleWorld 1000)).2.atTime 1001)).1
      = .ok () ∧
    inspectorCalls (performed (sampleWorld 1000)
      (RecordInventory sampleLib sampleDir tenMinutes (sampleWorld 1000)).2) +
    inspectorCalls (performed
      ((RecordInventory sampleLib sampleDir tenMinutes (sampleWorld 1000)).2.atTime 1001)
      (RecordInventory sampleLib sampleDir tenMinutes
        ((RecordInventory sampleLib sampleDir tenMinutes (sampleWorld 1000)).2.atTime 1001)).2)
      = 2) ∧
    (laggingWorld.files (sampleLib.filepathJoin sampleDir "inventory.json") = none ∧
    (0 : Duration) < oneMillisecond ∧
    (10139000 : Time) - laggingWorld.now < oneMillisecond ∧
    writesTo (sampleLib.filepathJoin sampleDir "inventory.json")
      (performed laggingWorld
        (RecordInventory sampleLib sampleDir oneMillisecond laggingWorld).2) +
    writesTo (sampleLib.filepathJoin sampleDir "inventory.json")
      (performed
        ((RecordInventory sampleLib sampleDir oneMillisecond laggingWorld).2.atTime 10139000)
        (RecordInventory sampleLib sampleDir oneMillisecond
          ((RecordInventory sampleLib sampleDir oneMillisecond laggingWorld).2.atTime
            10139000)).2)
      = 2) := by
  constructor
  · obtain ⟨data, -, hok2, hp1, hp2, -⟩ := recordInventory_twice sampleLib sampleDir tenMinutes
      (sampleWorld 1000) ⟨17179869184, 1⟩ 1001 rfl rfl
      (by intro f hf; cases hf) rfl rfl (by decide)
    rw [hp1, hp2]
    exact ⟨rfl, by decide, by decide, hok2, rfl⟩
  · obtain ⟨data, data2, hp1, hp2⟩ := recordInventory_twice_stale sampleLib sampleDir
      oneMillisecond laggingWorld ⟨17179869184, 1⟩ 10139000 rfl rfl
      (by intro f hf; cases hf) rfl rfl (by decide)
    rw [hp1, hp2]
    refine ⟨rfl, by decide, by decide, ?_⟩
    simp [writesTo]

/-- C4, amended. Starting from an absent or stale inventory file, with the
memory query and the file system calls succeeding, two calls of
`RecordInventory` with the same directory and TTL, the second made at a clock
reading at which the file written by the first, as the file system stamped
it, is younger than the TTL, both succeed and perform in total exactly two Host
Inspector invocations (one per call, each as the first effect of its call),
one `os.Create` and one write; the second call only calls `Sysinfo`,
`os.MkdirAll` and `os.Stat`, and leaves the file as the first call wrote it. -/
theorem two_runs_one_write (lib : Lib) (dir : String) (ttl : Duration) (w : World)
    (info : SysinfoT) (now2 : Time) (hsys : w.sysinfoResult = .ok info)
    (hdir : w.mkdirAllErr dir = none)
    (hcreate : w.createErr (lib.filepathJoin dir "inventory.json") = none)
    (hwrite : w.writeErr (lib.filepathJoin dir "inventory.json") = none)
    (hmiss : w.files (lib.filepathJoin dir "inventory.json") = none ∨
      ∃ f, w.files (lib.filepathJoin dir "inventory.json") = some f ∧
        ttl ≤ timeSince w.now f.modTime)
    (hsoon : timeSince now2 w.fsClock < ttl) :
    (RecordInventory lib dir ttl w).1 = .ok () ∧
    (RecordInventory lib dir ttl ((RecordInventory lib dir ttl w).2.atTime now2)).1 = .ok () ∧
    inspectorCalls (performed w (RecordInventory lib dir ttl w).2) +
      inspectorCalls (performed ((RecordInventory lib dir ttl w).2.atTime now2)
        (RecordInventory lib dir ttl ((RecordInventory lib dir ttl w).2.atTime now2)).2) = 2 ∧
    createsOf (lib.filepathJoin dir "inventory.json")
        (performed w (RecordInventory lib dir ttl w).2) +
      createsOf (lib.filepathJoin dir "inventory.json")
        (performed ((RecordInventory lib dir ttl w).2.atTime now2)
          (RecordInventory lib dir ttl ((RecordInventory lib dir ttl w).2.atTime now2)).2) = 1 ∧
    writesTo (lib.filepathJoin dir "inventory.json")
        (performed w (RecordInventory lib dir ttl w).2) +
      writesTo (lib.filepathJoin dir "inventory.json")
        (performed ((RecordInventory lib dir ttl w).2.atTime now2)
          (RecordInventory lib dir ttl ((RecordInventory lib dir ttl w).2.atTime now2)).2) = 1 ∧
    (RecordInventory lib dir ttl ((RecordInventory lib dir ttl w).2.atTime now2)).2.files
        (lib.filepathJoin dir "inventory.json") =
      (RecordInventory lib dir ttl w).2.files (lib.filepathJoin dir "inventory.json") ∧
    (∃ data,
      performed w (RecordInventory lib dir ttl w).2 =
        [Event.sysinfo, Event.mkdirAll dir,
          Event.stat (lib.filepathJoin dir "inventory.json"),
          Event.create (lib.filepathJoin dir "inventory.json"),
          Event.write (lib.filepathJoin dir "inventory.json") data,
          Event.close (lib.filepathJoin dir "inventory.json")] ∧
      (RecordInventory lib dir ttl w).2.files (lib.filepathJoin dir "inventory.json") =
        some ⟨data, w.fsClock⟩) ∧
    performed ((RecordInventory lib dir ttl w).2.atTime now2)
        (RecordInventory lib dir ttl ((RecordInventory lib dir ttl w).2.atTime now2)).2 =
      [Event.sysinfo, Event.mkdirAll dir,
        Event.stat (lib.filepathJoin dir "inventory.json")] := by
  have hstale : ∀ f, w.files (lib.filepathJoin dir "inventory.json") = some f →
      ¬ timeSince w.now f.modTime < ttl := by
    intro f hf
    rcases hmiss with hnone | ⟨g, hg, hge⟩
    · rw [hnone] at hf
      cases hf
    · rw [hg] at hf
      have hfg : g = f := Option.some.inj hf
      subst hfg
      exact not_lt.mpr hge
  obtain ⟨data, hok1, hok2, hp1, hp2, hfile2⟩ :=
    recordInventory_twice lib dir ttl w info now2 hsys hdir hstale hcreate hwrite hsoon
  obtain ⟨m, data1, -, -, -, htr, hfile1, -⟩ :=
    recordInventory_miss lib dir ttl w info hsys hdir hstale hcreate hwrite
  have hp1b := performed_append w _ _ htr
  have hd : data1 = data := by
    rw [hp1] at hp1b
    simpa using hp1b.symm
  subst hd
  rw [hp1, hp2, hfile2, hfile1]
  refine ⟨hok1, hok2, rfl, ?_, ?_, rfl, ⟨data1, rfl, rfl⟩, rfl⟩
  · simp [createsOf]
  · simp [writesTo]

/-- Witness for C4 (amended): no inventory file, second call one nanosecond on. -/
theorem two_runs_one_write_witness :
    (sampleWorld 1000).files (sampleLib.filepathJoin sampleDir "inventory.json") = none ∧
    timeSince 1001 (sampleWorld 1000).fsClock < tenMinutes ∧
    (RecordInventory sampleLib sampleDir tenMinutes
      ((RecordInventory sampleLib sampleDir tenMinutes (sampleWorld 1000)).2.atTime 1001)).1
      = .ok () ∧
    writesTo (sampleLib.filepathJoin sampleDir "inventory.json")
        (performed (sampleWorld 1000)
          (RecordInventory sampleLib sampleDir tenMinutes (sampleWorld 1000)).2) +
      writesTo (sampleLib.filepathJoin sampleDir "inventory.json")
        (performed ((RecordInventory sampleLib sampleDir tenMinutes (sampleWorld 1000)).2.atTime 1001)
          (RecordInventory sampleLib sampleDir tenMinutes
            ((RecordInventory sampleLib sampleDir tenMinutes (sampleWorld 1000)).2.atTime 1001)).2)
      = 1 :=
  have h := two_runs_one_write sampleLib sampleDir tenMinutes (sampleWorld 1000)
    ⟨17179869184, 1⟩ 1001 rfl rfl rfl rfl (Or.inl rfl) (by decide)
  ⟨rfl, by decide, h.2.1, h.2.2.2.2.1⟩

/-! ### API client wrapper -/

/-- Counterexample to C9: `url.Parse` accepts `"not a url"` (no scheme, no
authority, the whole text is the path), so `getClient` does not fail on it: it
returns a client with empty host and scheme. -/
theorem getClient_not_a_url_counterexample :
    urlParse (goBytes "not a url") = .ok { Path := goBytes "not a url" } ∧
    getClient "not a url" = .ok ⟨⟨[], []⟩⟩ :=
  ⟨by rfl, by rfl⟩

/-- C9, amended. `getClient` fails exactly when `url.Parse` rejects the
endpoint, with the error of `url.Parse` (as for `"http://host:12ab"`, whose
port is not numeric, or for `"127.0.0.1:8000"`, whose first path segment holds
a colon); for every endpoint `url.Parse` accepts it returns a client configured
with exactly the parsed host and scheme, so `"http://host:1234"` gives host
`host:1234` and scheme `http`. -/
theorem getClient_follows_url_parse (endpoint : String) :
    (∀ err, urlParse (goBytes endpoint) = .error err → getClient endpoint = .error err) ∧
    (∀ url, urlParse (goBytes endpoint) = .ok url →
      getClient endpoint = .ok ⟨⟨url.Host, url.Scheme⟩⟩) ∧
    getClient "http://host:1234" = .ok ⟨⟨goBytes "host:1234", goBytes "http"⟩⟩ ∧
    getClient "http://host:12ab" = .error ⟨"invalid port after host"⟩ ∧
    getClient "127.0.0.1:8000" = .error ⟨"first path segment in URL cannot contain colon"⟩ := by
  refine ⟨?_, ?_, by rfl, by rfl, by rfl⟩
  · intro err h
    simp [getClient, h]
  · intro url h
    simp [getClient, h]

/-- Witness for C9 (amended): the default endpoint of the `--endpoint` flag. -/
theorem getClient_follows_url_parse_witness :
    urlParse (goBytes "http://127.0.0.1:8000")
      = .ok { Scheme := goBytes "http", Host := goBytes "127.0.0.1:8000" } ∧
    getClient "http://127.0.0.1:8000"
      = .ok ⟨⟨goBytes "127.0.0.1:8000", goBytes "http"⟩⟩ :=
  ⟨by rfl, (getClient_follows_url_parse "http://127.0.0.1:8000").2.1
    { Scheme := goBytes "http", Host := goBytes "127.0.0.1:8000" } (by rfl)⟩

/-! ### Command dispatcher -/

/-- The trace only grows under `RecordInventory`, and every effect it adds
is local: none is a remote call or command output. -/
theorem recordInventory_local (lib : Lib) (dir : String) (ttl : Duration) (w : World) :
    (RecordInventory lib dir ttl w).2.trace =
      w.trace ++ performed w (RecordInventory lib dir ttl w).2 ∧
    ∀ ev ∈ performed w (RecordInventory lib dir ttl w).2,
      ev.isRemote = false ∧ ev.isOutput = false := by
  unfold performed
  cases hsys : w.sysinfoResult with
  | error err =>
    simp [RecordInventory, osInventory, getMemInfo, hsys, World.emit, Event.isRemote,
      Event.isOutput]
  | ok info =>
    obtain ⟨m, -, hos⟩ := osInventory_ok w info hsys
    cases hdir : w.mkdirAllErr dir with
    | some err =>
      simp [RecordInventory, hos, World.emit, hdir, Event.isRemote, Event.isOutput]
    | none =>
      cases hc : w.createErr (lib.filepathJoin dir "inventory.json") <;>
      cases hwr : w.writeErr (lib.filepathJoin dir "inventory.json") <;>
      cases hfile : w.files (lib.filepathJoin dir "inventory.json") <;>
      simp [RecordInventory, recordInventoryWrite, hos, World.emit, World.setFile, hdir, hfile,
        hc, hwr, Event.isRemote, Event.isOutput] <;>
      split_ifs <;>
      simp [Event.isRemote, Event.isOutput]

/-- C6. The `Before` hook builds the client first and ensures the inventory
second.  If `getClient` fails, the hook returns that error with the world
untouched, so `RecordInventory` has not been invoked; if `RecordInventory`
fails, the hook returns that error.  In both cases `app.Run` returns the error
without running the command: no remote call and no output is among the
effects performed, and `main` exits with status 1.  When both steps succeed
the command's action runs with the client just built, after the inventory
step. -/
theorem before_order_and_abort (lib : Lib) (cmd : Command) (c : Flags) (w : World) :
    (∀ err, getClient c.endpoint = .error err →
      before lib c w = (.error err, w) ∧
      appRun lib cmd c w = (.error err, w) ∧
      performed w (appRun lib cmd c w).2 = [] ∧
      (mainRun lib cmd c w).1 = 1) ∧
    (∀ client err, getClient c.endpoint = .ok client →
      (RecordInventory lib c.inventoryDir c.inventoryTTL w).1 = .error err →
      (before lib c w).1 = .error err ∧
      appRun lib cmd c w =
        (.error err, (RecordInventory lib c.inventoryDir c.inventoryTTL w).2) ∧
      (∀ ev ∈ performed w (appRun lib cmd c w).2,
        ev.isRemote = false ∧ ev.isOutput = false) ∧
      (mainRun lib cmd c w).1 = 1) ∧
    (∀ client, getClient c.endpoint = .ok client →
      (RecordInventory lib c.inventoryDir c.inventoryTTL w).1 = .ok () →
      before lib c w =
        (.ok client, (RecordInventory lib c.inventoryDir c.inventoryTTL w).2) ∧
      appRun lib cmd c w =
        action lib cmd c client (RecordInventory lib c.inventoryDir c.inventoryTTL w).2) := by
  refine ⟨?_, ?_, ?_⟩
  · intro err h
    have hb : before lib c w = (.error err, w) := by simp [before, h]
    have ha : appRun lib cmd c w = (.error err, w) := by simp [appRun, hb]
    refine ⟨hb, ha, ?_, ?_⟩
    · rw [ha]
      simp [performed]
    · simp [mainRun, ha]
  · intro client err h hr
    have hb : before lib c w =
        (.error err, (RecordInventory lib c.inventoryDir c.inventoryTTL w).2) := by
      unfold before
      rw [h]
      generalize RecordInventory lib c.inventoryDir c.inventoryTTL w = r at hr ⊢
      obtain ⟨r1, r2⟩ := r
      simp only at hr
      subst hr
      rfl
    have ha : appRun lib cmd c w =
        (.error err, (RecordInventory lib c.inventoryDir c.inventoryTTL w).2) := by
      simp [appRun, hb]
    refine ⟨by rw [hb], ha, ?_, ?_⟩
    · rw [ha]
      exact (recordInventory_local lib c.inventoryDir c.inventoryTTL w).2
    · simp [mainRun, ha]
  · intro client h hr
    have hb : before lib c w =
        (.ok client, (RecordInventory lib c.inventoryDir c.inventoryTTL w).2) := by
      unfold before
      rw [h]
      generalize RecordInventory lib c.inventoryDir c.inventoryTTL w = r at hr ⊢
      obtain ⟨r1, r2⟩ := r
      simp only at hr
      subst hr
      rfl
    refine ⟨hb, ?_⟩
    simp [appRun, hb]

/-- Witness for C6: an endpoint `url.Parse` rejects, and a failing memory
query behind a good endpoint; in both runs `main` exits with status 1. -/
theorem before_order_and_abort_witness :
    getClient (sampleFlags "127.0.0.1:8000").endpoint
      = .error ⟨"first path segment in URL cannot contain colon"⟩ ∧
    appRun sampleLib Command.run (sampleFlags "127.0.0.1:8000") (sampleWorld 1000)
      = (.error ⟨"first path segment in URL cannot contain colon"⟩, sampleWorld 1000) ∧
    (RecordInventory sampleLib sampleDir tenMinutes
      ((sampleWorld 1000).withSysinfoError ePerm)).1 = .error ePerm ∧
    (mainRun sampleLib Command.run (sampleFlags "http://127.0.0.1:8000")
      ((sampleWorld 1000).withSysinfoError ePerm)).1 = 1 :=
  have h1 := (before_order_and_abort sampleLib Command.run (sampleFlags "127.0.0.1:8000")
    (sampleWorld 1000)).1 ⟨"first path segment in URL cannot contain colon"⟩ (by rfl)
  have hr : (RecordInventory sampleLib sampleDir tenMinutes
      ((sampleWorld 1000).withSysinfoError ePerm)).1 = .error ePerm := rfl
  have h2 := (before_order_and_abort sampleLib Command.run (sampleFlags "http://127.0.0.1:8000")
    ((sampleWorld 1000).withSysinfoError ePerm)).2.1
      ⟨⟨goBytes "127.0.0.1:8000", goBytes "http"⟩⟩ ePerm (by rfl) hr
  ⟨by rfl, h1.2.1, hr, h2.2.2.2⟩

/-- C10. When the models call succeeds, `list-models` makes that one call and
renders exactly one table, with header `PROVIDER`, `MODEL` and one row
`provider`, `model` per returned record, in the order of the records; when
the call fails, the action returns the error and renders nothing.  For the
single record `openai`, `gpt-4o` the table has the one row `openai`,
`gpt-4o`. -/
theorem listModels_renders_one_table (client : APIClient) (w : World) :
    (∀ models, w.listModelsResult client = .ok models →
      (listModelsAction client w).1 = .ok () ∧
      performed w (listModelsAction client w).2 =
        [Event.listModels client,
         Event.render ⟨["PROVIDER", "MODEL"], models.map fun m => [m.provider, m.model]⟩,
         Event.closeBody]) ∧
    (∀ err, w.listModelsResult client = .error err →
      (listModelsAction client w).1 = .error err ∧
      performed w (listModelsAction client w).2 = [Event.listModels client]) ∧
    ([(⟨"openai", "gpt-4o"⟩ : Model)].map fun m => [m.provider, m.model])
      = [["openai", "gpt-4o"]] := by
  refine ⟨?_, ?_, rfl⟩
  · intro models h
    refine ⟨by simp [listModelsAction, h], ?_⟩
    apply performed_append
    simp [listModelsAction, h, World.emit, Model.GetProvider, Model.GetModel]
  · intro err h
    refine ⟨by simp [listModelsAction, h], ?_⟩
    apply performed_append
    simp [listModelsAction, h, World.emit]

/-- Witness for C10: the service answers with the single model `openai`,
`gpt-4o`. -/
theorem listModels_renders_one_table_witness :
    (sampleWorld 1000).listModelsResult ⟨⟨goBytes "127.0.0.1:8000", goBytes "http"⟩⟩
      = .ok [⟨"openai", "gpt-4o"⟩] ∧
    performed (sampleWorld 1000)
      (listModelsAction ⟨⟨goBytes "127.0.0.1:8000", goBytes "http"⟩⟩ (sampleWorld 1000)).2 =
      [Event.listModels ⟨⟨goBytes "127.0.0.1:8000", goBytes "http"⟩⟩,
       Event.render ⟨["PROVIDER", "MODEL"], [["openai", "gpt-4o"]]⟩,
       Event.closeBody] :=
  ⟨rfl, ((listModels_renders_one_table ⟨⟨goBytes "127.0.0.1:8000", goBytes "http"⟩⟩
    (sampleWorld 1000)).1 [⟨"openai", "gpt-4o"⟩] rfl).2⟩

/-- The loop over the results renders one table per record, in order, each
from some rearrangement of the entries of its record. -/
theorem renderResults_trace (lib : Lib) (results : List GoMap) :
    ∀ (i : Nat) (w : World), w.RangeOk →
      ∃ tables, (renderResults lib i results w).trace = w.trace ++ tables.map Event.render ∧
        List.Forall₂ (fun (r : GoMap) (t : Table) =>
          ∃ iter : List (String × Value), iter.Perm r.entries ∧
            t.header = iter.map (fun kv => kv.1) ∧
            t.rows = [iter.map fun kv => sprintV lib kv.2]) results tables := by
  induction results with
  | nil =>
    intro i w _
    exact ⟨[], by simp [renderResults], List.Forall₂.nil⟩
  | cons r rs ih =>
    intro i w hw
    have hw1 : (w.emit (Event.render (renderResult lib (w.rangeOrder i r)))).RangeOk := by
      intro j m
      exact hw j m
    obtain ⟨tables, htr, hall⟩ := ih (i + 1) _ hw1
    refine ⟨renderResult lib (w.rangeOrder i r) :: tables, ?_, ?_⟩
    · rw [renderResults, htr]
      simp [World.emit]
    · exact List.Forall₂.cons ⟨w.rangeOrder i r, hw i r, rfl, rfl⟩ hall

/-- Counterexample to C8: Go leaves the order of a `range` over a map
unspecified; on a host where it yields `exit` before `cmd`, the two records
are rendered with headers `exit`, `cmd` and rows `0`, `ls` and `0`, `pwd`, not
with headers `cmd`, `exit`. -/
theorem run_header_order_counterexample :
    reversedWorld.RangeOk ∧
    reversedWorld.runResult sampleClient ⟨"openai", "gpt-4o", "list the pods", ["cli"]⟩ =
      .ok [⟨[("cmd", Value.str "ls"), ("exit", Value.str "0")]⟩,
           ⟨[("cmd", Value.str "pwd"), ("exit", Value.str "0")]⟩] ∧
    performed reversedWorld
      (runAction sampleLib (sampleFlags "http://127.0.0.1:8000") sampleClient reversedWorld).2 =
      [Event.run sampleClient ⟨"openai", "gpt-4o", "list the pods", ["cli"]⟩,
       Event.render ⟨["exit", "cmd"], [["0", "ls"]]⟩,
       Event.render ⟨["exit", "cmd"], [["0", "pwd"]]⟩,
       Event.closeBody] := by
  refine ⟨?_, rfl, ?_⟩
  · intro i m
    exact List.reverse_perm m.entries
  · apply performed_append
    rfl

/-- C8, amended. When the run call succeeds, the `run` command makes that
one call and then renders exactly one table per returned record, in the order
of the records.  Each table is built from the entries of its record in the
order Go's map iteration yields them, which is some rearrangement of the
entries: the header is the keys in that order and the single row is the
stringified values in the same order, so the i-th cell is the value of the
i-th header key. -/
theorem run_renders_one_table_per_record (lib : Lib) (c : Flags) (client : APIClient)
    (w : World) (results : List GoMap) (hrange : w.RangeOk)
    (hres : w.runResult client ⟨c.provider, c.model, c.instruction, c.contexts⟩ = .ok results) :
    (runAction lib c client w).1 = .ok () ∧
    ∃ tables,
      performed w (runAction lib c client w).2 =
        [Event.run client ⟨c.provider, c.model, c.instruction, c.contexts⟩]
          ++ tables.map Event.render ++ [Event.closeBody] ∧
      tables.length = results.length ∧
      List.Forall₂ (fun (r : GoMap) (t : Table) =>
        ∃ iter : List (String × Value), iter.Perm r.entries ∧
          t.header = iter.map (fun kv => kv.1) ∧
          t.rows = [iter.map fun kv => sprintV lib kv.2]) results tables := by
  have hw1 : (w.emit (Event.run client ⟨c.provider, c.model, c.instruction, c.contexts⟩)).RangeOk := by
    intro j m
    exact hrange j m
  obtain ⟨tables, htr, hall⟩ := renderResults_trace lib results 0 _ hw1
  refine ⟨by simp [runAction, hres], tables, ?_, hall.length_eq.symm, hall⟩
  apply performed_append
  simp only [runAction, hres]
  rw [show ((renderResults lib 0 results
      (w.emit (Event.run client ⟨c.provider, c.model, c.instruction, c.contexts⟩))).emit
      Event.closeBody).trace = (renderResults lib 0 results
      (w.emit (Event.run client ⟨c.provider, c.model, c.instruction, c.contexts⟩))).trace
        ++ [Event.closeBody] from rfl, htr]
  simp [World.emit]

/-- Witness for C8 (amended): the two sample records, iterated as listed. -/
theorem run_renders_one_table_per_record_witness :
    (sampleWorld 1000).RangeOk ∧
    (runAction sampleLib (sampleFlags "http://127.0.0.1:8000") sampleClient
      (sampleWorld 1000)).1 = .ok () ∧
    performed (sampleWorld 1000)
      (runAction sampleLib (sampleFlags "http://127.0.0.1:8000") sampleClient
        (sampleWorld 1000)).2 =
      [Event.run sampleClient ⟨"openai", "gpt-4o", "list the pods", ["cli"]⟩,
       Event.render ⟨["cmd", "exit"], [["ls", "0"]]⟩,
       Event.render ⟨["cmd", "exit"], [["pwd", "0"]]⟩,
       Event.closeBody] :=
  ⟨fun _ m => List.Perm.refl m.entries,
    (run_renders_one_table_per_record sampleLib (sampleFlags "http://127.0.0.1:8000")
      sampleClient (sampleWorld 1000) _ (fun _ m => List.Perm.refl m.entries) rfl).1,
    performed_append _ _ _ rfl⟩

end Opsmate
